import Mathlib

/-!
Shallow embedding of the search pipeline of `src/routers/properties.py`
(repository `vitrina_search_api`), together with proofs about it.

The embedding models:
* the Python string helpers `_normalize_words`, `str.strip`/`str.split`/
  `str.lower` (restricted to ASCII case mapping, which covers every string
  the matching claims are about),
* the agent index construction `prepare_agents_indexes` and the lookup
  `find_agent_phone_from_db_optimized`,
* the unified item dictionaries built in `search_properties` and both of
  its sorting paths (custom `order_by` key and the default five-field key),
* the validity checker `check_object_validity` (network effects are made
  explicit as a per-attempt outcome function),
* the paginator `filter_and_paginate_items`,
* filter normalization/validation and the SQL predicates of the two
  fetch queries.

Python `str` values are modelled as `List Char` where induction over the
characters is needed, and as `String` elsewhere; Python `float` columns are
modelled as `ℚ` (only order and zero-tests matter to the code under study),
Python `int` as `ℤ`.
-/

namespace VitrinaSearch

/-! ### Python string primitives over `List Char` -/

/-- The whitespace characters recognised by Python's `str.split()` /
`str.strip()` (the ASCII ones; the source never feeds other whitespace). -/
def isWs (c : Char) : Bool :=
  c = ' ' || c = '\t' || c = '\n' || c = '\r' || c = '\x0b' || c = '\x0c'

/-- Python `str.lower()` restricted to ASCII letters (the agent-matching
claims only involve ASCII names; other characters are left unchanged,
as Python does for non-cased characters). -/
def lowerChar (c : Char) : Char :=
  match c with
  | 'A' => 'a' | 'B' => 'b' | 'C' => 'c' | 'D' => 'd' | 'E' => 'e'
  | 'F' => 'f' | 'G' => 'g' | 'H' => 'h' | 'I' => 'i' | 'J' => 'j'
  | 'K' => 'k' | 'L' => 'l' | 'M' => 'm' | 'N' => 'n' | 'O' => 'o'
  | 'P' => 'p' | 'Q' => 'q' | 'R' => 'r' | 'S' => 's' | 'T' => 't'
  | 'U' => 'u' | 'V' => 'v' | 'W' => 'w' | 'X' => 'x' | 'Y' => 'y'
  | 'Z' => 'z'
  | d => d

/-- Python `str.strip()` on a character list: drop leading and trailing
whitespace. -/
def stripL (l : List Char) : List Char :=
  ((l.dropWhile isWs).reverse.dropWhile isWs).reverse

/-- Worker for `splitWs`: `acc` holds the current word, reversed. -/
def splitWsAux : List Char → List Char → List (List Char)
  | [], acc => if acc.isEmpty then [] else [acc.reverse]
  | c :: rest, acc =>
    if isWs c then
      if acc.isEmpty then splitWsAux rest []
      else acc.reverse :: splitWsAux rest []
    else splitWsAux rest (c :: acc)

/-- Python `str.split()` (no separator argument): split on whitespace runs,
producing only nonempty words. -/
def splitWs (l : List Char) : List (List Char) := splitWsAux l []

/-- `_normalize_words` (properties.py line 46):
`[word.strip().lower() for word in text.split() if word and word.strip()]`. -/
def normalizeWordsL (text : List Char) : List (List Char) :=
  ((splitWs text).filter (fun w => !w.isEmpty && !(stripL w).isEmpty)).map
    (fun w => (stripL w).map lowerChar)

/-- Python string comparison `<` on character lists (lexicographic by code
point), as a boolean. -/
def clLtB : List Char → List Char → Bool
  | [], [] => false
  | [], _ :: _ => true
  | _ :: _, [] => false
  | a :: as, b :: bs => if a < b then true else if b < a then false else clLtB as bs

/-- Python `sorted([x, y])` for two strings (stable two-element sort). -/
def pySort2 (x y : List Char) : List (List Char) :=
  if clLtB y x then [y, x] else [x, y]

/-- Python `sorted(words)` for a word list (stable; `List.insertionSort`
with the non-strict order produces exactly the stable-sorted list). -/
def pySortWords (ws : List (List Char)) : List (List Char) :=
  List.insertionSort (fun a b => clLtB b a = false) ws

/-- Python `" ".join(words)`. -/
def joinSp : List (List Char) → List Char
  | [] => []
  | [w] => w
  | w :: ws => w ++ ' ' :: joinSp ws

/-- Python `s < t` on `String` (lexicographic by code point). -/
def pyStrLt (a b : String) : Prop := clLtB a.data b.data = true

/-- Python `s <= t` on `String`. -/
def pyStrLe (a b : String) : Prop := clLtB b.data a.data = false

instance : DecidableRel pyStrLt := fun a b =>
  inferInstanceAs (Decidable (clLtB a.data b.data = true))

instance : DecidableRel pyStrLe := fun a b =>
  inferInstanceAs (Decidable (clLtB b.data a.data = false))

/-! ### The unified item dictionaries of `search_properties` -/

/-- The two data sources; the Python dicts store the strings
`"Витрина"` (primary) and `"Крыша"` (secondary). -/
inductive Source | vitrina | krisha
deriving DecidableEq, Repr

/-- The source string stored under the `'source'` key. -/
def Source.str : Source → String
  | .vitrina => "Витрина"
  | .krisha => "Крыша"

/-- One unified item dict, as built at properties.py lines 778-815.
`contact_name`/`contact_phone` are `None` until after pagination, so they
are not fields here (`Item.get` returns `none` for them).  The stored
`'_sort_key'` tuple is write-only in the source (never read back), so it
is not carried either; `itemKeys` still lists it. -/
structure Item where
  id : String
  source : Source
  complex : Option String
  address : Option String
  price : Option ℤ
  area : Option ℚ
  rooms_count : Option ℤ
  category : Option String
  score : Option ℚ
  krisha_id : Option String
  phones : Option String
  mop : Option String
  stats_agent_given : Option String
deriving DecidableEq, Repr

/-- A scalar value as Python's sort key code sees it: either a number
(`isinstance(v, (int, float))`) or any other value, used via `str(v)`
(all other dict values in play are strings). -/
inductive SortVal | num (q : ℚ) | str (s : String)
deriving DecidableEq, Repr

/-- `item.get(field)` for the unified dicts: the value stored under each
key, with numbers and strings injected into `SortVal`. -/
def Item.get (x : Item) : String → Option SortVal
  | "id" => some (.str x.id)
  | "source" => some (.str x.source.str)
  | "complex" => x.complex.map .str
  | "address" => x.address.map .str
  | "price" => x.price.map (fun n => .num (n : ℚ))
  | "area" => x.area.map .num
  | "rooms_count" => x.rooms_count.map (fun n => .num (n : ℚ))
  | "category" => x.category.map .str
  | "score" => x.score.map .num
  | "krisha_id" => x.krisha_id.map .str
  | "contact_name" => none
  | "contact_phone" => none
  | "phones" => x.phones.map .str
  | "_mop" => x.mop.map .str
  | "_stats_agent_given" => x.stats_agent_given.map .str
  | _ => none

/-- Every key present in the Python item dicts (including the write-only
`'_sort_key'`); `item.get` of any other string is `None`. -/
def itemKeys : List String :=
  ["id", "source", "complex", "address", "price", "area", "rooms_count",
   "category", "score", "krisha_id", "contact_name", "contact_phone",
   "phones", "_mop", "_stats_agent_given", "_sort_key"]

/-- `0 if item['source'] == 'Витрина' else 1`. -/
def srcOrd (x : Item) : ℕ :=
  match x.source with | .vitrina => 0 | .krisha => 1

/-! ### The custom `order_by` sort (properties.py lines 819-856) -/

/-- Non-strict comparison between third sort-key components.  Python
compares two numbers or two strings; a number and a string never meet in
the keys the code builds (the middle null-flag differs), so the two mixed
cases get an arbitrary total completion. -/
def SortVal.Le : SortVal → SortVal → Prop
  | .num a, .num b => a ≤ b
  | .str a, .str b => pyStrLe a b
  | .num _, .str _ => True
  | .str _, .num _ => False

instance : DecidableRel SortVal.Le := fun a b =>
  match a, b with
  | .num x, .num y => inferInstanceAs (Decidable (x ≤ y))
  | .str x, .str y => inferInstanceAs (Decidable (pyStrLe x y))
  | .num _, .str _ => .isTrue trivial
  | .str _, .num _ => .isFalse id

/-- Lexicographic comparison of the tuples returned by `sort_key`. -/
def keyLe (k k' : ℕ × ℕ × SortVal) : Prop :=
  k.1 < k'.1 ∨ (k.1 = k'.1 ∧
    (k.2.1 < k'.2.1 ∨ (k.2.1 = k'.2.1 ∧ SortVal.Le k.2.2 k'.2.2)))

instance : DecidableRel keyLe := fun k k' =>
  inferInstanceAs (Decidable (k.1 < k'.1 ∨ (k.1 = k'.1 ∧
    (k.2.1 < k'.2.1 ∨ (k.2.1 = k'.2.1 ∧ SortVal.Le k.2.2 k'.2.2)))))

/-- `field_mapping.get(field_name, field_name)` with
`{'contract_price': 'price', 'price': 'price'}`. -/
def mapSortField (f : String) : String :=
  if f = "contract_price" then "price" else if f = "price" then "price" else f

/-- Splitting `order_by` into field name and direction:
`order_by.startswith("-")` strips the first character (`order_by[1:]`)
and sets `desc = True`. -/
def parseOrderBy (ob : String) : String × Bool :=
  match ob.data with
  | '-' :: rest => (⟨rest⟩, true)
  | _ => (ob, false)

/-- The `sort_key(item)` closure (lines 835-854) for a given stripped field
name and direction. -/
def customKey (field : String) (desc : Bool) (x : Item) : ℕ × ℕ × SortVal :=
  match x.get (mapSortField field) with
  | none => (srcOrd x, 1, .str (if desc then "zzz" else ""))
  | some (.num q) => (srcOrd x, 0, .num (if desc then -q else q))
  | some (.str s) => (srcOrd x, 0, .str (if desc then "zzz" ++ s else s))

/-- The item ordering induced by `sort_key` for a given `order_by` value. -/
def customRel (ob : String) (x y : Item) : Prop :=
  keyLe (customKey (parseOrderBy ob).1 (parseOrderBy ob).2 x)
        (customKey (parseOrderBy ob).1 (parseOrderBy ob).2 y)

instance : ∀ ob, DecidableRel (customRel ob) := fun ob x y =>
  inferInstanceAs (Decidable (keyLe
    (customKey (parseOrderBy ob).1 (parseOrderBy ob).2 x)
    (customKey (parseOrderBy ob).1 (parseOrderBy ob).2 y)))

/-! ### The default sort (properties.py lines 858-865) -/

/-- The default sort key:
`(0/1, category or '', -(score or 0) if Витрина else 0, price or 0, -(area or 0))`. -/
def defaultKey (x : Item) : ℕ × String × ℚ × ℚ × ℚ :=
  (srcOrd x,
   x.category.getD "",
   if x.source = .vitrina then -(x.score.getD 0) else 0,
   ((x.price.getD 0 : ℤ) : ℚ),
   -(x.area.getD 0))

/-- Lexicographic non-strict order on default sort keys. -/
def dKeyLe (a b : ℕ × String × ℚ × ℚ × ℚ) : Prop :=
  a.1 < b.1 ∨ (a.1 = b.1 ∧
   (pyStrLt a.2.1 b.2.1 ∨ (a.2.1 = b.2.1 ∧
    (a.2.2.1 < b.2.2.1 ∨ (a.2.2.1 = b.2.2.1 ∧
     (a.2.2.2.1 < b.2.2.2.1 ∨ (a.2.2.2.1 = b.2.2.2.1 ∧
      a.2.2.2.2 ≤ b.2.2.2.2)))))))

instance : DecidableRel dKeyLe := fun a b =>
  inferInstanceAs (Decidable (a.1 < b.1 ∨ (a.1 = b.1 ∧
   (pyStrLt a.2.1 b.2.1 ∨ (a.2.1 = b.2.1 ∧
    (a.2.2.1 < b.2.2.1 ∨ (a.2.2.1 = b.2.2.1 ∧
     (a.2.2.2.1 < b.2.2.2.1 ∨ (a.2.2.2.1 = b.2.2.2.1 ∧
      a.2.2.2.2 ≤ b.2.2.2.2)))))))))

/-- The default item ordering. -/
def defaultRel (x y : Item) : Prop := dKeyLe (defaultKey x) (defaultKey y)

instance : DecidableRel defaultRel := fun x y =>
  inferInstanceAs (Decidable (dKeyLe (defaultKey x) (defaultKey y)))

/-- The sorting step of `search_properties` (lines 819-865): a stable sort
by the custom key when `order_by` is truthy, by the default key otherwise.
Python's `list.sort` is a stable sort, and a stable sort by a total
preorder is unique, so `List.insertionSort` computes the same list. -/
def sortItems (orderBy : Option String) (items : List Item) : List Item :=
  match orderBy with
  | some ob =>
    if ob = "" then List.insertionSort defaultRel items
    else List.insertionSort (customRel ob) items
  | none => List.insertionSort defaultRel items

/-! ### Source records (models.py) and the unifier (lines 778-815) -/

/-- The columns of `properties` (Витрина) read by the pipeline.
`crm_id` is the (non-null) primary key; `contract_price` is a
`BigInteger`, `area`/`score` are `Float` columns. -/
structure PropertyRecord where
  crm_id : String
  mop : Option String
  address : Option String
  complex : Option String
  contract_price : Option ℤ
  category : Option String
  area : Option ℚ
  rooms_count : Option ℤ
  score : Option ℚ
  status : String
deriving DecidableEq, Repr

/-- The columns of `parsed_properties` (Крыша) read by the pipeline.
`vitrina_id` is the integer primary key; `sell_price`/`area` are `Float`
columns. -/
structure ParsedPropertyRecord where
  vitrina_id : ℤ
  krisha_id : Option String
  address : Option String
  complex : Option String
  sell_price : Option ℚ
  area : Option ℚ
  room_count : Option ℤ
  phones : Option String
  stats_agent_given : Option String
  stats_object_status : Option String
  stats_object_category : Option String
deriving DecidableEq, Repr

/-- Python `int(x)` on a float, i.e. truncation toward zero. -/
def pyTrunc (q : ℚ) : ℤ := if q < 0 then -((-q).floor) else q.floor

/-- `int(v) if v else None` for an integer column: both `None` and `0` are
falsy, so they map to `None`. -/
def truthyInt : Option ℤ → Option ℤ
  | none => none
  | some n => if n = 0 then none else some n

/-- `int(v) if v else None` for a float column: `None` and `0.0` map to
`None`, anything else is truncated to an integer. -/
def truthyFloatToInt : Option ℚ → Option ℤ
  | none => none
  | some q => if q = 0 then none else some (pyTrunc q)

/-- The Витрина branch of the unifier (properties.py lines 778-795). -/
def mapVitrina (p : PropertyRecord) : Item :=
  { id := p.crm_id
    source := .vitrina
    complex := p.complex
    address := p.address
    price := truthyInt p.contract_price
    area := p.area
    rooms_count := p.rooms_count
    category := p.category
    score := p.score
    krisha_id := none
    phones := none
    mop := p.mop
    stats_agent_given := none }

/-- The Крыша branch of the unifier (properties.py lines 798-815). -/
def mapKrisha (p : ParsedPropertyRecord) : Item :=
  { id := toString p.vitrina_id
    source := .krisha
    complex := p.complex
    address := p.address
    price := truthyFloatToInt p.sell_price
    area := p.area
    rooms_count := p.room_count
    category := p.stats_object_category
    score := none
    krisha_id := p.krisha_id
    phones := p.phones
    mop := none
    stats_agent_given := p.stats_agent_given }

/-! ### Parameter parsing and validation (properties.py lines 24-44, 655-678)
and the pagination bounds (lines 646-647) -/

/-- Python `str.strip` on a `String`. -/
def stripS (s : String) : String := ⟨stripL s.data⟩

/-- Python `int(s)` for a string: optional surrounding whitespace, an
optional sign, then decimal digits; anything else raises `ValueError`
(modelled as `none`; Python's digit-group underscores and non-ASCII digits
are outside the model). -/
def pyStrToInt (s : String) : Option ℤ :=
  let t := stripL s.data
  let (sign, digits) :=
    match t with
    | '-' :: r => ((-1 : ℤ), r)
    | '+' :: r => ((1 : ℤ), r)
    | r => ((1 : ℤ), r)
  if digits = [] then none
  else if digits.all (fun c => c.isDigit) then
    some (sign * (digits.foldl (fun acc c => 10 * acc + ((c.toNat : ℤ) - 48)) 0))
  else none

/-- Python `float(s)` for a string, restricted to plain decimal literals
`[ws][sign]digits[.digits][ws]` (scientific notation etc. are outside the
model; the claims never depend on the parsed value of a float string). -/
def pyStrToFloat (s : String) : Option ℚ :=
  let t := stripL s.data
  let (sign, body) :=
    match t with
    | '-' :: r => ((-1 : ℚ), r)
    | '+' :: r => ((1 : ℚ), r)
    | r => ((1 : ℚ), r)
  let intPart := body.takeWhile (fun c => c.isDigit)
  let rest := body.drop intPart.length
  let digitsVal : List Char → ℚ :=
    fun ds => ((ds.foldl (fun acc c => 10 * acc + ((c.toNat : ℤ) - 48)) 0 : ℤ) : ℚ)
  match rest with
  | [] =>
    if intPart = [] then none else some (sign * digitsVal intPart)
  | '.' :: frac =>
    if frac.all (fun c => c.isDigit) ∧ (intPart ≠ [] ∨ frac ≠ []) then
      some (sign * (digitsVal intPart + digitsVal frac / (10 ^ frac.length : ℚ)))
    else none
  | _ => none

/-- A raw query value of type `Optional[Union[int, str]]`
(resp. `Optional[Union[float, str]]` with `.inl` a number). -/
def RawNum (α : Type) := Option (α ⊕ String)

/-- `parse_optional_int` (properties.py lines 24-33). -/
def parse_optional_int (v : RawNum ℤ) : Option ℤ :=
  match v with
  | none => none
  | some (.inl n) => some n
  | some (.inr s) =>
    if s = "" then none
    else if stripS s = "" then none
    else pyStrToInt s

/-- `parse_optional_float` (properties.py lines 35-44). -/
def parse_optional_float (v : RawNum ℚ) : Option ℚ :=
  match v with
  | none => none
  | some (.inl q) => some q
  | some (.inr s) =>
    if s = "" then none
    else if stripS s = "" then none
    else pyStrToFloat s

/-- The raw filter inputs of `search_properties`. -/
structure RawSearchParams where
  price_min : RawNum ℤ
  price_max : RawNum ℤ
  complex : Option String
  area_min : RawNum ℚ
  area_max : RawNum ℚ
  rooms_count_min : RawNum ℤ
  rooms_count_max : RawNum ℤ
  score_min : RawNum ℚ
  address : Option String

/-- The validated filter values after lines 655-678. -/
structure SearchFilters where
  price_min : Option ℤ
  price_max : Option ℤ
  complex : Option String
  area_min : Option ℚ
  area_max : Option ℚ
  rooms_count_min : Option ℤ
  rooms_count_max : Option ℤ
  score_min : Option ℚ
  address : Option String
deriving DecidableEq, Repr

/-- `x = None if x is not None and bad(x) else x`. -/
def discardIf {α : Type} (bad : α → Bool) : Option α → Option α
  | none => none
  | some v => if bad v then none else some v

/-- The parsing + validation block of `search_properties`
(properties.py lines 655-678): parse permissively, then silently discard
out-of-range values.  Always succeeds — bad filter input never raises. -/
def normalizeFilters (raw : RawSearchParams) : SearchFilters :=
  { price_min := discardIf (fun n => n < 0) (parse_optional_int raw.price_min)
    price_max := discardIf (fun n => n < 0) (parse_optional_int raw.price_max)
    complex := raw.complex
    area_min := discardIf (fun q => q < 0) (parse_optional_float raw.area_min)
    area_max := discardIf (fun q => q < 0) (parse_optional_float raw.area_max)
    rooms_count_min :=
      discardIf (fun n => n < 1 ∨ 10 < n) (parse_optional_int raw.rooms_count_min)
    rooms_count_max :=
      discardIf (fun n => n < 1 ∨ 10 < n) (parse_optional_int raw.rooms_count_max)
    score_min :=
      discardIf (fun q => q < 0 ∨ 5 < q) (parse_optional_float raw.score_min)
    address := raw.address }

/-- Modelled from FastAPI's handling of
`limit: int = Query(100, ge=1, le=1000)` and
`offset: int = Query(0, ge=0)` (properties.py lines 646-647): an omitted
parameter takes its default; a present value violating `ge`/`le` makes
request validation fail with a 422 error (`none`); it is not clamped. -/
def validatePagination (rawLimit rawOffset : Option ℤ) : Option (ℤ × ℤ) :=
  match (match rawLimit with
         | none => some (100 : ℤ)
         | some v => if 1 ≤ v ∧ v ≤ 1000 then some v else none),
        (match rawOffset with
         | none => some (0 : ℤ)
         | some v => if 0 ≤ v then some v else none) with
  | some l, some o => some (l, o)
  | _, _ => none

/-! ### The SQL predicates of the two fetch queries (lines 680-747) -/

/-- ASCII-case-insensitive containment: `column ILIKE '%pattern%'`
(`%`/`_` wildcards inside the pattern itself are outside the model, and
lowercasing is the ASCII one). `NULL` columns satisfy no condition. -/
def ilikeContains (column : Option String) (pattern : String) : Bool :=
  match column with
  | none => false
  | some s => decide (List.IsInfix (pattern.data.map lowerChar) (s.data.map lowerChar))

/-- SQL `column >= bound` for a nullable numeric column (NULL rows fail). -/
def sqlGe {α : Type} [LE α] [DecidableRel (α := α) (· ≤ ·)]
    (column : Option α) (bound : α) : Bool :=
  match column with
  | none => false
  | some v => bound ≤ v

/-- SQL `column <= bound` for a nullable numeric column. -/
def sqlLe {α : Type} [LE α] [DecidableRel (α := α) (· ≤ ·)]
    (column : Option α) (bound : α) : Bool :=
  match column with
  | none => false
  | some v => v ≤ bound

/-- Whether a truthy text filter is applied: `if complex and complex.strip():`. -/
def textFilterActive (t : Option String) : Bool :=
  match t with
  | none => false
  | some s => !(s = "") && !(stripS s = "")

/-- The Витрина fetch predicate (properties.py lines 681-701): conjunction
of the non-terminal-status condition and every active filter condition. -/
def vitrinaPred (f : SearchFilters) (r : PropertyRecord) : Bool :=
  (r.status ≠ "Реализовано" : Bool)
  && (match f.price_min with | none => true | some b => sqlGe r.contract_price b)
  && (match f.price_max with | none => true | some b => sqlLe r.contract_price b)
  && (if textFilterActive f.complex
      then ilikeContains r.complex (f.complex.getD "") else true)
  && (match f.area_min with | none => true | some b => sqlGe r.area b)
  && (match f.area_max with | none => true | some b => sqlLe r.area b)
  && (match f.rooms_count_min with | none => true | some b => sqlGe r.rooms_count b)
  && (match f.rooms_count_max with | none => true | some b => sqlLe r.rooms_count b)
  && (match f.score_min with | none => true | some b => sqlGe r.score b)
  && (if textFilterActive f.address
      then ilikeContains r.address (f.address.getD "") else true)

/-- The Крыша fetch predicate (properties.py lines 713-738): the status
condition keeps NULL statuses, and there is no `score_min` condition. -/
def krishaPred (f : SearchFilters) (r : ParsedPropertyRecord) : Bool :=
  (match r.stats_object_status with
   | none => true
   | some s => (s ≠ "Архив" : Bool))
  && (match f.price_min with
      | none => true | some b => sqlGe r.sell_price ((b : ℤ) : ℚ))
  && (match f.price_max with
      | none => true | some b => sqlLe r.sell_price ((b : ℤ) : ℚ))
  && (if textFilterActive f.complex
      then ilikeContains r.complex (f.complex.getD "") else true)
  && (match f.area_min with | none => true | some b => sqlGe r.area b)
  && (match f.area_max with | none => true | some b => sqlLe r.area b)
  && (match f.rooms_count_min with | none => true | some b => sqlGe r.room_count b)
  && (match f.rooms_count_max with | none => true | some b => sqlLe r.room_count b)
  && (if textFilterActive f.address
      then ilikeContains r.address (f.address.getD "") else true)

/-! ### `check_object_validity` (properties.py lines 348-401) -/

/-- The outcome of one HTTP attempt against the validity authority:
either a response (status code plus the decoded JSON fields), a transient
network error (`httpx.TimeoutException` / `ConnectError` / `NetworkError`),
or any other exception (including JSON decode errors). -/
inductive AttemptOutcome
  | response (status : ℕ) (expired isSold : Bool) (photoIdList : List ℕ)
  | transientError
  | otherError
deriving DecidableEq, Repr

/-- What one run of `check_object_validity` did: its returned pair
`(is_valid, has_photos)`, how many HTTP attempts it made, and the
`asyncio.sleep` backoffs (in seconds) it performed, in order. -/
structure CheckTrace where
  verdict : Bool × Bool
  attempts : ℕ
  sleeps : List ℚ
deriving DecidableEq, Repr

/-- The retry loop of `check_object_validity` (lines 372-398): `attempt` is
the current 0-based attempt index, `remaining` the number of retries still
allowed.  On a 200 response the item is valid iff not expired, has at
least one photo id, and is not sold; a non-200 status or another exception
is invalid with no retry; a transient error sleeps `0.5 * (attempt + 1)`
seconds and retries, and exhausting all retries returns valid (fail-open). -/
def checkLoop (net : ℕ → AttemptOutcome) (attempt : ℕ) :
    (remaining : ℕ) → CheckTrace
  | 0 =>
    match net attempt with
    | .response status expired isSold photos =>
      if status = 200 then
        let hasPhotos := !photos.isEmpty
        ⟨(!expired && hasPhotos && !isSold, hasPhotos), 1, []⟩
      else ⟨(false, false), 1, []⟩
    | .transientError => ⟨(true, true), 1, []⟩
    | .otherError => ⟨(false, false), 1, []⟩
  | r + 1 =>
    match net attempt with
    | .response status expired isSold photos =>
      if status = 200 then
        let hasPhotos := !photos.isEmpty
        ⟨(!expired && hasPhotos && !isSold, hasPhotos), 1, []⟩
      else ⟨(false, false), 1, []⟩
    | .transientError =>
      let rest := checkLoop net (attempt + 1) r
      ⟨rest.verdict, rest.attempts + 1, ((1 : ℚ) / 2 * (attempt + 1)) :: rest.sleeps⟩
    | .otherError => ⟨(false, false), 1, []⟩

/-- `check_object_validity(crm_id, ...)` with `max_retries` retries.  The
network is passed in explicitly as the outcome of each attempt.  A falsy
`crm_id` returns `(False, False)` without any attempt. -/
def check_object_validity (crmId : String) (net : ℕ → AttemptOutcome)
    (maxRetries : ℕ := 2) : CheckTrace :=
  if crmId = "" then ⟨(false, false), 0, []⟩
  else checkLoop net 0 maxRetries

/-! ### `filter_and_paginate_items` (properties.py lines 473-580) -/

/-- `[(i, idx) for idx, i in enumerate(items)]`. -/
def enumItems (items : List Item) : List (Item × ℕ) :=
  items.enum.map (fun p => (p.2, p.1))

/-- The Витрина subsequence, each with its original index (line 497). -/
def vitrinaOf (items : List Item) : List (Item × ℕ) :=
  (enumItems items).filter (fun p => p.1.source = .vitrina)

/-- The Крыша subsequence, each with its original index (line 498). -/
def krishaOf (items : List Item) : List (Item × ℕ) :=
  (enumItems items).filter (fun p => p.1.source = .krisha)

/-- One awaited batch: `asyncio.gather` returns the verdicts in batch
order, and the loop at lines 539-542 appends exactly the items whose
check returned valid, in that order. -/
def checkBatch (check : String → Bool) (batch : List (Item × ℕ)) :
    List (Item × ℕ) :=
  batch.filter (fun p => check p.1.id)

/-- Stable sort of accepted items by original index
(`all_valid_items.sort(key=lambda x: x[1])`, line 574). -/
def idxRel (p q : Item × ℕ) : Prop := p.2 ≤ q.2

instance : DecidableRel idxRel := fun p q =>
  inferInstanceAs (Decidable (p.2 ≤ q.2))

/-- The batching loop over the Витрина subsequence (lines 527-548).
State: remaining items, the accumulating batch, the accepted valid items,
the ids checked so far, and a batch counter.  When the batch reaches
`batchSize` it is checked as a whole; `shuffle n` reorders the accepted
items of the `n`-th checked batch — the actual code appends them in batch
order (`shuffle = fun _ l => l`), and an arbitrary permutation models the
completion-order nondeterminism of the concurrent checks.  After every
item the loop stops if `target` accepted items have been collected. -/
def pagLoop (check : String → Bool) (shuffle : ℕ → List (Item × ℕ) → List (Item × ℕ))
    (batchSize target : ℕ) :
    (rem : List (Item × ℕ)) → (batch : List (Item × ℕ)) →
    (valid : List (Item × ℕ)) → (ids : List String) → (n : ℕ) →
    List (Item × ℕ) × List (Item × ℕ) × List String × ℕ
  | [], batch, valid, ids, n => (valid, batch, ids, n)
  | x :: rest, batch, valid, ids, n =>
    let batch1 := batch ++ [x]
    let st :=
      if batchSize ≤ batch1.length then
        (([] : List (Item × ℕ)), valid ++ shuffle n (checkBatch check batch1),
         ids ++ batch1.map (fun p => p.1.id), n + 1)
      else (batch1, valid, ids, n)
    if target ≤ st.2.1.length then (st.2.1, st.1, st.2.2.1, st.2.2.2)
    else pagLoop check shuffle batchSize target rest st.1 st.2.1 st.2.2.1 st.2.2.2

/-- The result of `filter_and_paginate_items`: the page, the returned
total, and (for the error-handling claims) the list of crm ids that were
actually sent to the validity checker, in call order. -/
structure PageResult where
  page : List Item
  total : ℕ
  checkedIds : List String
deriving DecidableEq, Repr

/-- `filter_and_paginate_items(items, offset, limit)` (lines 473-580),
parametrised by the batch-completion `shuffle` (identity in the source).
`token` is `os.getenv("APPLICATION_VIEW_API_TOKEN")`; when it is missing
every Витрина item is dropped and a page of Крыша items is returned with
no check ever invoked.  Otherwise Витрина items are checked in batches
until `offset + limit` valid ones accumulate, Крыша items fill any
shortfall, and the accepted items are re-sorted by original index before
slicing. -/
def filterAndPaginateCore (items : List Item) (offset limit : ℕ)
    (token : Option String) (check : String → Bool)
    (shuffle : ℕ → List (Item × ℕ) → List (Item × ℕ))
    (batchSize : ℕ := 20) : PageResult :=
  let vit := vitrinaOf items
  let kri := krishaOf items
  match token with
  | none =>
    ⟨((kri.drop offset).take limit).map Prod.fst, items.length, []⟩
  | some _ =>
    let target := offset + limit
    let st := pagLoop check shuffle batchSize target vit [] [] [] 0
    let valid := st.1
    let leftover := st.2.1
    let ids := st.2.2.1
    let n := st.2.2.2
    let st2 :=
      if leftover ≠ [] ∧ valid.length < target then
        (valid ++ shuffle n (checkBatch check leftover),
         ids ++ leftover.map (fun p => p.1.id))
      else (valid, ids)
    let allValid :=
      if st2.1.length < target then st2.1 ++ kri.take (target - st2.1.length)
      else st2.1
    let sorted := List.insertionSort idxRel allValid
    ⟨((sorted.drop offset).take limit).map Prod.fst, items.length, st2.2⟩

/-- `filter_and_paginate_items` as written: batch results are consumed in
`asyncio.gather` order. -/
def filter_and_paginate_items (items : List Item) (offset limit : ℕ)
    (token : Option String) (check : String → Bool)
    (batchSize : ℕ := 20) : PageResult :=
  filterAndPaginateCore items offset limit token check (fun _ l => l) batchSize

/-! ### Agent directory indexes (properties.py lines 50-80, 140-173) -/

/-- A row of `vitrina_agents` (both columns nullable). -/
structure VitrinaAgentRec where
  full_name : Option (List Char)
  agent_phone : Option (List Char)

/-- Truthiness of an optional string: `None` and `""` are falsy. -/
def truthyStr : Option (List Char) → Bool
  | none => false
  | some s => !s.isEmpty

/-- Lookup in a Python dict modelled as an association list where the most
recent assignment is at the head. -/
def dictGet (k : List Char) : List (List Char × List Char) → Option (List Char)
  | [] => none
  | (k', v) :: rest => if k' = k then some v else dictGet k rest

/-- Dict assignment `d[k] = v`: the new binding shadows any older one. -/
def dictSet (k v : List Char) (d : List (List Char × List Char)) :
    List (List Char × List Char) :=
  (k, v) :: d

/-- The nested expression at properties.py line 77:
`_normalize_words(name_to_phone.get(name_key, "").split()[0] if
name_to_phone.get(name_key) else "")`.  (Python would raise `IndexError`
on a non-empty all-whitespace stored phone; the code never stores one in
the situations the claims cover, and the model totalises that corner with
`[]`.) -/
def collisionWords (prev : Option (List Char)) : List (List Char) :=
  match prev with
  | some p => if p.isEmpty then normalizeWordsL [] else
      normalizeWordsL ((splitWs p).headD [])
  | none => normalizeWordsL []

/-- `prepare_agents_indexes` (properties.py lines 50-80): builds
`phone_to_name` and `name_to_phone`.  The `name_to_phone` key is the
space-join of the sorted normalized name words; an existing entry is
overwritten only under the (buggy but faithfully modelled) length
comparison of line 77. -/
def prepare_agents_indexes (agents : List VitrinaAgentRec) :
    List (List Char × List Char) × List (List Char × List Char) :=
  agents.foldl
    (fun acc agent =>
      let (ptn, ntp) := acc
      if truthyStr agent.agent_phone then
        let phoneClean := stripL (agent.agent_phone.getD [])
        if truthyStr agent.full_name then
          let fullName := agent.full_name.getD []
          let ptn1 := dictSet phoneClean fullName ptn
          let nameWords := normalizeWordsL fullName
          if !nameWords.isEmpty then
            let nameKey := joinSp (pySortWords nameWords)
            if dictGet nameKey ntp = none ∨
                (collisionWords (dictGet nameKey ntp)).length < nameWords.length then
              (ptn1, dictSet nameKey phoneClean ntp)
            else (ptn1, ntp)
          else (ptn1, ntp)
        else (ptn, ntp)
      else (ptn, ntp))
    ([], [])

/-- The inner `for j in range(i + 1, len(mop_words))` loop of
`find_agent_phone_from_db_optimized`, scanning pairs `(w, v)` for `v`
after `w`.  Since every hit scores the constant 2 and the running best is
only replaced by a strictly larger score, the first hit is the result. -/
def scanFrom (w : List Char) (ntp : List (List Char × List Char)) :
    List (List Char) → Option (List Char)
  | [] => none
  | v :: rest =>
    match dictGet (joinSp (pySort2 w v)) ntp with
    | some p => some p
    | none => scanFrom w ntp rest

/-- The outer `for i in range(len(mop_words))` loop. -/
def pairScan (ntp : List (List Char × List Char)) :
    List (List Char) → Option (List Char)
  | [] => none
  | w :: rest =>
    match scanFrom w ntp rest with
    | some p => some p
    | none => pairScan ntp rest

/-- `find_agent_phone_from_db_optimized(mop, name_to_phone)`
(properties.py lines 140-173). -/
def find_agent_phone_from_db_optimized (mop : List Char)
    (ntp : List (List Char × List Char)) : Option (List Char) :=
  if mop.isEmpty || (stripL mop).isEmpty then none
  else
    let mopWords := normalizeWordsL mop
    if mopWords.isEmpty || mopWords.length < 2 then none
    else pairScan ntp mopWords

/-! ### Derived orderings referenced by the sorting claims -/

/-- Comparison of items by source rank alone (`Витрина` before `Крыша`). -/
def srcRel (x y : Item) : Prop := srcOrd x ≤ srcOrd y

instance : DecidableRel srcRel := fun x y =>
  inferInstanceAs (Decidable (srcOrd x ≤ srcOrd y))

/-- The per-field direction rule the spec claims for a custom sort
(defined from the spec's words, for comparison with the code): the `-`
direction reverses the comparison for every field type. -/
def specDirectionLe (desc : Bool) : SortVal → SortVal → Prop
  | .num a, .num b => if desc then b ≤ a else a ≤ b
  | .str a, .str b => if desc then pyStrLe b a else pyStrLe a b
  | _, _ => True

instance : ∀ d, DecidableRel (specDirectionLe d) := fun d a b =>
  match a, b with
  | .num x, .num y => inferInstanceAs (Decidable (if d then y ≤ x else x ≤ y))
  | .str x, .str y =>
    inferInstanceAs (Decidable (if d then pyStrLe y x else pyStrLe x y))
  | .num _, .str _ => .isTrue trivial
  | .str _, .num _ => .isTrue trivial

/-- The per-field direction rule the code actually implements: `-`
reverses numeric comparisons, but string values compare ascending either
way (the `'zzz' + s` trick keeps the ascending order). -/
def effDirLe (desc : Bool) : SortVal → SortVal → Prop
  | .num a, .num b => if desc then b ≤ a else a ≤ b
  | .str a, .str b => pyStrLe a b
  | _, _ => True

/-- A filter record with its `score_min` forgotten. -/
def eraseScoreMin (f : SearchFilters) : SearchFilters :=
  { f with score_min := none }

/-! ### Concrete data for the scenario claims and witnesses -/

/-- Scenario item `P1` (Витрина, valid). -/
def c2P1 : Item :=
  ⟨"P1", .vitrina, none, none, some 100, some 40, some 2, some "A", some 5,
   none, none, some "Aidos Bekov", none⟩

/-- Scenario item `P2` (Витрина, authority answers 500). -/
def c2P2 : Item :=
  ⟨"P2", .vitrina, none, none, some 200, some 50, some 2, some "A", some 4,
   none, none, none, none⟩

/-- Scenario item `P3` (Витрина, authority times out on all attempts). -/
def c2P3 : Item :=
  ⟨"P3", .vitrina, none, none, some 300, some 60, some 3, some "B", some 3,
   none, none, none, none⟩

/-- Scenario item `S1` (Крыша). -/
def c2S1 : Item :=
  ⟨"S1", .krisha, none, none, some 150, some 45, some 2, some "A", none,
   some "k1", none, none, none⟩

/-- Scenario item `S2` (Крыша). -/
def c2S2 : Item :=
  ⟨"S2", .krisha, none, none, some 250, some 55, some 2, some "B", none,
   some "k2", none, none, none⟩

/-- The scenario input: three Витрина and two Крыша items, in default
sort order. -/
def c2Items : List Item := [c2P1, c2P2, c2P3, c2S1, c2S2]

/-- The remote behaviour of the scenario: `P1` answers 200 and is fine,
`P2` answers 500, everything else (in particular `P3`) times out on every
attempt. -/
def c2Net (id : String) : ℕ → AttemptOutcome := fun _ =>
  if id = "P1" then .response 200 false false [7]
  else if id = "P2" then .response 500 false false []
  else .transientError

/-- The verdict function induced by `check_object_validity` under
`c2Net`. -/
def c2Check (id : String) : Bool :=
  (check_object_validity id (c2Net id)).verdict.1

/-- C3 demo item with category `"B"`, fetched first. -/
def c3a : Item :=
  ⟨"a", .vitrina, none, none, none, none, none, some "B", none,
   none, none, none, none⟩

/-- C3 demo item with category `"A"`, fetched second. -/
def c3b : Item :=
  ⟨"b", .vitrina, none, none, none, none, none, some "A", none,
   none, none, none, none⟩

/-- C6 demo item with category `"A"`. -/
def c6a : Item :=
  ⟨"x", .vitrina, none, none, some 10, none, none, some "A", none,
   none, none, none, none⟩

/-- C6 demo item with category `"B"`. -/
def c6b : Item :=
  ⟨"y", .vitrina, none, none, some 5, none, none, some "B", none,
   none, none, none, none⟩

/-- C4 witness item. -/
def c4Item : Item :=
  ⟨"V9", .vitrina, none, none, some 77, none, none, some "A", some 1,
   none, none, none, none⟩

/-- A batch-completion reordering used to witness C7: every batch's
accepted items come back in reversed order. -/
def revShuffle : ℕ → List (Item × ℕ) → List (Item × ℕ) := fun _ l => l.reverse

/-- The two normalized words of the C8 directory entry. -/
def aidosW : List Char := "aidos".data

/-- Second C8 word. -/
def bekovW : List Char := "bekov".data

/-- The `name_to_phone` key the C8 entry is indexed under. -/
def aidosBekovKey : List Char := "aidos bekov".data

/-- C10 witness filters, score bound `4`. -/
def c10fA : SearchFilters :=
  ⟨some 10, some 100, some "Grand", some 1, some 99, some 1, some 5,
   some 4, some "Нура"⟩

/-- C10 witness filters, score bound `1`. -/
def c10fB : SearchFilters :=
  ⟨some 10, some 100, some "Grand", some 1, some 99, some 1, some 5,
   some 1, some "Нура"⟩

/-- C10 witness record. -/
def c10Rec : ParsedPropertyRecord :=
  ⟨7, some "k7", some "Астана, Нура", some "Grand Turan", some 50, some 45,
   some 2, none, none, none, some "A"⟩

/-! ### General lemmas -/

theorem discardIf_ok {α : Type} (bad : α → Bool) (x : Option α) :
    discardIf bad x = none ∨
      ∃ v, discardIf bad x = some v ∧ bad v = false := by
  rcases x with _ | v
  · exact Or.inl rfl
  · unfold discardIf
    by_cases h : bad v
    · simp [h]
    · exact Or.inr ⟨v, by simp [h], by simpa using h⟩

/-! ### C1 -/

/-- C1 (counterexample): out-of-range pagination bounds are rejected by
request validation (`none`, a 422 error), not clamped into range: a
request with `limit = 0`, one with `limit = 1001` and one with
`offset = -1` all fail, contradicting both "clamped" and "no request
ever fails with an error because of bad pagination input". -/
theorem c1_pagination_rejected_counterexample :
    validatePagination (some 0) (some 0) = none ∧
    validatePagination (some 1001) (some 0) = none ∧
    validatePagination (some 5) (some (-1)) = none := by
  refine ⟨?_, ?_, ?_⟩ <;> decide

/-- C1 (amended): pagination bounds are validated, not clamped: the
request is accepted exactly when the supplied `limit` lies in `[1,1000]`
(default 100 when omitted) and the supplied `offset` is `≥ 0` (default 0),
and is otherwise rejected with a validation error — the only
caller-visible failure.  Filter inputs, by contrast, are normalized and
never rejected: whatever the raw input, every validated filter bound
lands in its legal range (price and area bounds nonnegative, room-count
bounds in `[1,10]`, score bound in `[0,5]`) or is dropped entirely. -/
theorem c1_pagination_validated_filters_normalized :
    ∀ (rl ro : Option ℤ) (l o : ℤ) (raw : RawSearchParams),
      (validatePagination rl ro = some (l, o) ↔
        (((rl = none ∧ l = 100) ∨ (rl = some l ∧ 1 ≤ l ∧ l ≤ 1000)) ∧
         ((ro = none ∧ o = 0) ∨ (ro = some o ∧ 0 ≤ o)))) ∧
      ((normalizeFilters raw).price_min = none ∨
        ∃ v, (normalizeFilters raw).price_min = some v ∧ 0 ≤ v) ∧
      ((normalizeFilters raw).price_max = none ∨
        ∃ v, (normalizeFilters raw).price_max = some v ∧ 0 ≤ v) ∧
      ((normalizeFilters raw).area_min = none ∨
        ∃ v, (normalizeFilters raw).area_min = some v ∧ 0 ≤ v) ∧
      ((normalizeFilters raw).area_max = none ∨
        ∃ v, (normalizeFilters raw).area_max = some v ∧ 0 ≤ v) ∧
      ((normalizeFilters raw).rooms_count_min = none ∨
        ∃ v, (normalizeFilters raw).rooms_count_min = some v ∧ 1 ≤ v ∧ v ≤ 10) ∧
      ((normalizeFilters raw).rooms_count_max = none ∨
        ∃ v, (normalizeFilters raw).rooms_count_max = some v ∧ 1 ≤ v ∧ v ≤ 10) ∧
      ((normalizeFilters raw).score_min = none ∨
        ∃ v, (normalizeFilters raw).score_min = some v ∧ 0 ≤ v ∧ v ≤ 5) := by
  intro rl ro l o raw
  constructor
  · unfold validatePagination
    rcases rl with _ | v <;> rcases ro with _ | w
    · simp [eq_comm]
    · by_cases hw : (0 : ℤ) ≤ w
      · simp [hw, eq_comm]
        intro h; omega
      · simp [hw, eq_comm]
        intro h1 h2; omega
    · by_cases hv : (1 : ℤ) ≤ v ∧ v ≤ 1000
      · simp [hv, eq_comm]
        intro h; omega
      · simp [hv, eq_comm]
        intro h1 h2 h3; omega
    · by_cases hv : (1 : ℤ) ≤ v ∧ v ≤ 1000 <;> by_cases hw : (0 : ℤ) ≤ w
      · simp [hv, hw, eq_comm]
        constructor <;> intro h <;> omega
      · simp [hv, hw, eq_comm]
        intro h1 h2; omega
      · simp [hv, hw, eq_comm]
        intro h1 h2 h3; omega
      · simp [hv, hw, eq_comm]
        intro h1 h2 h3; omega
  refine ⟨?_, ?_, ?_, ?_, ?_, ?_, ?_⟩ <;>
    simp only [normalizeFilters]
  · rcases discardIf_ok _ (parse_optional_int raw.price_min) with h | ⟨v, hv, hb⟩
    · exact Or.inl h
    · exact Or.inr ⟨v, hv, by simpa using hb⟩
  · rcases discardIf_ok _ (parse_optional_int raw.price_max) with h | ⟨v, hv, hb⟩
    · exact Or.inl h
    · exact Or.inr ⟨v, hv, by simpa using hb⟩
  · rcases discardIf_ok _ (parse_optional_float raw.area_min) with h | ⟨v, hv, hb⟩
    · exact Or.inl h
    · exact Or.inr ⟨v, hv, by simpa using hb⟩
  · rcases discardIf_ok _ (parse_optional_float raw.area_max) with h | ⟨v, hv, hb⟩
    · exact Or.inl h
    · exact Or.inr ⟨v, hv, by simpa using hb⟩
  · rcases discardIf_ok _ (parse_optional_int raw.rooms_count_min) with h | ⟨v, hv, hb⟩
    · exact Or.inl h
    · refine Or.inr ⟨v, hv, ?_⟩
      simp only [decide_eq_false_iff_not, not_or, not_lt] at hb
      exact ⟨hb.1, hb.2⟩
  · rcases discardIf_ok _ (parse_optional_int raw.rooms_count_max) with h | ⟨v, hv, hb⟩
    · exact Or.inl h
    · refine Or.inr ⟨v, hv, ?_⟩
      simp only [decide_eq_false_iff_not, not_or, not_lt] at hb
      exact ⟨hb.1, hb.2⟩
  · rcases discardIf_ok _ (parse_optional_float raw.score_min) with h | ⟨v, hv, hb⟩
    · exact Or.inl h
    · refine Or.inr ⟨v, hv, ?_⟩
      simp only [decide_eq_false_iff_not, not_or, not_lt] at hb
      exact ⟨hb.1, hb.2⟩

/-! ### C9 -/

/-- C9: the unified `price` is absent exactly when the raw price column is
`NULL` or `0` (both falsy in `int(x) if x else None`); a nonzero
`contract_price` passes through unchanged, and a nonzero `sell_price`
(a float column) passes through as its integer truncation. -/
theorem c9_zero_price_becomes_none :
    ∀ (p : PropertyRecord) (q : ParsedPropertyRecord) (m : ℤ),
      ((mapVitrina p).price = none ↔
        p.contract_price = none ∨ p.contract_price = some 0) ∧
      ((mapVitrina p).price = some m ↔ p.contract_price = some m ∧ m ≠ 0) ∧
      ((mapKrisha q).price = none ↔
        q.sell_price = none ∨ q.sell_price = some 0) ∧
      ((mapKrisha q).price = some m ↔
        ∃ r, q.sell_price = some r ∧ r ≠ 0 ∧ m = pyTrunc r) := by
  intro p q m
  refine ⟨?_, ?_, ?_, ?_⟩
  · simp only [mapVitrina, truthyInt]
    rcases p.contract_price with _ | n
    · simp
    · by_cases hn : n = 0 <;> simp [hn]
  · simp only [mapVitrina, truthyInt]
    rcases p.contract_price with _ | n
    · simp
    · by_cases hn : n = 0 <;> simp [hn] <;> omega
  · simp only [mapKrisha, truthyFloatToInt]
    rcases q.sell_price with _ | r
    · simp
    · by_cases hr : r = 0 <;> simp [hr]
  · simp only [mapKrisha, truthyFloatToInt]
    rcases q.sell_price with _ | r
    · simp
    · by_cases hr : r = 0 <;> simp [hr]
      exact eq_comm

/-! ### C10 -/

/-- C10: the Крыша fetch predicate contains no score condition, so two
filter sets that agree on everything except `score_min` select exactly
the same Крыша records. -/
theorem c10_secondary_ignores_score_min :
    ∀ (f₁ f₂ : SearchFilters) (r : ParsedPropertyRecord),
      eraseScoreMin f₁ = eraseScoreMin f₂ →
      krishaPred f₁ r = krishaPred f₂ r := by
  intro f₁ f₂ r h
  have h1 : f₁.price_min = f₂.price_min := by
    simpa [eraseScoreMin] using congrArg SearchFilters.price_min h
  have h2 : f₁.price_max = f₂.price_max := by
    simpa [eraseScoreMin] using congrArg SearchFilters.price_max h
  have h3 : f₁.complex = f₂.complex := by
    simpa [eraseScoreMin] using congrArg SearchFilters.complex h
  have h4 : f₁.area_min = f₂.area_min := by
    simpa [eraseScoreMin] using congrArg SearchFilters.area_min h
  have h5 : f₁.area_max = f₂.area_max := by
    simpa [eraseScoreMin] using congrArg SearchFilters.area_max h
  have h6 : f₁.rooms_count_min = f₂.rooms_count_min := by
    simpa [eraseScoreMin] using congrArg SearchFilters.rooms_count_min h
  have h7 : f₁.rooms_count_max = f₂.rooms_count_max := by
    simpa [eraseScoreMin] using congrArg SearchFilters.rooms_count_max h
  have h8 : f₁.address = f₂.address := by
    simpa [eraseScoreMin] using congrArg SearchFilters.address h
  simp only [krishaPred, h1, h2, h3, h4, h5, h6, h7, h8]

/-- C10 (witness): two concrete filter sets that differ only in their
in-range `score_min` (4 vs 1) agree on `eraseScoreMin` and select the
same concrete Крыша record. -/
theorem c10_witness :
    eraseScoreMin c10fA = eraseScoreMin c10fB ∧
    krishaPred c10fA c10Rec = krishaPred c10fB c10Rec :=
  ⟨by decide, c10_secondary_ignores_score_min c10fA c10fB c10Rec (by decide)⟩

/-! ### C2 -/

/-- C2: on the five-item scenario (three Витрина items `P1` valid, `P2`
answered 500, `P3` timing out on all three attempts, plus two Крыша
items), already in default sort order, a request with `limit = 2`,
`offset = 0` returns exactly the page `[P1, P3]` in sort order (`P3`
fail-open, `P2` excluded) and `total = 5`, the unfiltered count from
both sources. -/
theorem c2_scenario_page :
    sortItems none c2Items = c2Items ∧
    c2Check "P1" = true ∧ c2Check "P2" = false ∧ c2Check "P3" = true ∧
    (filter_and_paginate_items c2Items 0 2 (some "token") c2Check).page =
      [c2P1, c2P3] ∧
    (filter_and_paginate_items c2Items 0 2 (some "token") c2Check).total = 5 :=
  ⟨by decide, by decide, by decide, by decide, by decide, by decide⟩

/-! ### C4 -/

/-- C4: for a Витрина item with a truthy id whose remote check hits a
transient network error on every attempt, `check_object_validity` makes
exactly 3 HTTP attempts (2 extra retries), sleeping `0.5·1` then `0.5·2`
seconds between them, and returns valid (fail-open); consequently the
paginator includes the item in the page as if it were valid. -/
theorem c4_transient_fail_open :
    ∀ (cid tok : String) (net : ℕ → AttemptOutcome) (x : Item),
      cid ≠ "" → (∀ n, net n = .transientError) →
      x.id = cid → x.source = .vitrina →
      check_object_validity cid net 2 = ⟨(true, true), 3, [1/2, 1]⟩ ∧
      (filter_and_paginate_items [x] 0 1 (some tok)
        (fun i => (check_object_validity i net 2).verdict.1)).page = [x] := by
  intro cid tok net x hcid hnet hxid hsrc
  have hcheck : check_object_validity cid net 2 = ⟨(true, true), 3, [1/2, 1]⟩ := by
    unfold check_object_validity
    rw [if_neg hcid]
    simp [checkLoop, hnet]
    norm_num
  refine ⟨hcheck, ?_⟩
  have hv : (check_object_validity x.id net 2).verdict.1 = true := by
    rw [hxid, hcheck]
  simp [filter_and_paginate_items, filterAndPaginateCore, pagLoop, checkBatch,
    vitrinaOf, krishaOf, enumItems, hsrc, hv, idxRel, List.insertionSort,
    List.orderedInsert]

/-- C4 (witness): the concrete item `c4Item` with id `"V9"` under an
always-timing-out network. -/
theorem c4_transient_fail_open_witness :
    check_object_validity "V9" (fun _ => .transientError) 2 =
      ⟨(true, true), 3, [1/2, 1]⟩ ∧
    (filter_and_paginate_items [c4Item] 0 1 (some "t")
      (fun i => (check_object_validity i (fun _ => .transientError) 2).verdict.1)).page =
      [c4Item] :=
  c4_transient_fail_open "V9" "t" (fun _ => .transientError) c4Item
    (by decide) (fun _ => rfl) rfl rfl

/-! ### C5 -/

/-- C5: when the validity-authority credential is absent, the paginator
invokes no validity check at all (`checkedIds = []`, and the result does
not depend on the checker), excludes every Витрина item (each page entry
is from Крыша), and returns the normally paginated Крыша page together
with the total — a normal response, never an error. -/
theorem c5_missing_token_excludes_primary :
    ∀ (items : List Item) (offset limit : ℕ) (check check' : String → Bool)
      (bs : ℕ),
      (filter_and_paginate_items items offset limit none check bs).checkedIds = [] ∧
      (filter_and_paginate_items items offset limit none check bs).total =
        items.length ∧
      (filter_and_paginate_items items offset limit none check bs).page.all
        (fun x => decide (x.source = .krisha)) = true ∧
      (filter_and_paginate_items items offset limit none check bs).page =
        (((krishaOf items).drop offset).take limit).map Prod.fst ∧
      filter_and_paginate_items items offset limit none check bs =
        filter_and_paginate_items items offset limit none check' bs := by
  intro items offset limit check check' bs
  refine ⟨rfl, rfl, ?_, rfl, rfl⟩
  simp only [filter_and_paginate_items, filterAndPaginateCore, List.all_eq_true]
  intro x hx
  rcases List.mem_map.mp hx with ⟨p, hp, rfl⟩
  have hp1 := List.mem_of_mem_take hp
  have hp2 := List.mem_of_mem_drop hp1
  have hp3 := List.of_mem_filter hp2
  simpa using hp3

/-! ### Order lemmas for the embedded Python string comparison -/

theorem clLtB_self : ∀ l : List Char, clLtB l l = false
  | [] => rfl
  | a :: as => by simp [clLtB, lt_irrefl, clLtB_self as]

/-! ### C3 -/

theorem Item.get_eq_none_of_not_mem {x : Item} {f : String} (h : f ∉ itemKeys) :
    x.get f = none := by
  unfold Item.get
  split <;> first
    | rfl
    | (exfalso; exact h (by simp_all [itemKeys]))

theorem orderedInsert_congr {α : Type} (r s : α → α → Prop)
    [DecidableRel r] [DecidableRel s] (hrs : ∀ a b, r a b ↔ s a b) (a : α) :
    ∀ l, List.orderedInsert r a l = List.orderedInsert s a l
  | [] => rfl
  | b :: l => by
    simp only [List.orderedInsert]
    by_cases hab : r a b
    · rw [if_pos hab, if_pos ((hrs a b).mp hab)]
    · rw [if_neg hab, if_neg (fun hs => hab ((hrs a b).mpr hs)),
        orderedInsert_congr r s hrs a l]

theorem insertionSort_congr {α : Type} (r s : α → α → Prop)
    [DecidableRel r] [DecidableRel s] (hrs : ∀ a b, r a b ↔ s a b) :
    ∀ l, List.insertionSort r l = List.insertionSort s l
  | [] => rfl
  | a :: l => by
    simp only [List.insertionSort]
    rw [insertionSort_congr r s hrs l, orderedInsert_congr r s hrs a _]

theorem customKey_of_get_none {f : String} {d : Bool} {x : Item}
    (h : x.get (mapSortField f) = none) :
    customKey f d x = (srcOrd x, 1, .str (if d then "zzz" else "")) := by
  simp [customKey, h]

theorem customRel_iff_srcRel {ob : String}
    (h : ∀ x : Item, x.get (mapSortField (parseOrderBy ob).1) = none) :
    ∀ x y, customRel ob x y ↔ srcRel x y := by
  intro x y
  unfold customRel srcRel
  rw [customKey_of_get_none (h x), customKey_of_get_none (h y)]
  unfold keyLe
  constructor
  · rintro (h1 | ⟨h1, _⟩) <;> omega
  · intro hle
    rcases Nat.lt_or_ge (srcOrd x) (srcOrd y) with hlt | hge
    · exact Or.inl hlt
    · have heq : srcOrd x = srcOrd y := le_antisymm hle hge
      refine Or.inr ⟨heq, Or.inr ⟨rfl, ?_⟩⟩
      show SortVal.Le _ _
      simp only [SortVal.Le, pyStrLe, clLtB_self]

/-- C3 (counterexample): sorting by the unknown field `"foo"` leaves the
two Витрина items in fetch order (their keys are all equal), while the
default multi-key order sorts them by category — the two orders differ,
so an unknown `order_by` does not fall back to the default order. -/
theorem c3_unknown_field_counterexample :
    sortItems (some "foo") [c3a, c3b] = [c3a, c3b] ∧
    sortItems none [c3a, c3b] = [c3b, c3a] ∧
    sortItems (some "foo") [c3a, c3b] ≠ sortItems none [c3a, c3b] :=
  ⟨by decide, by decide, by decide⟩

/-- C3 (amended): for a non-empty `order_by` whose field name (after
stripping `-` and applying the alias map) is not a key of the unified
item dicts, every item's key degenerates to its source rank, so the
result is the stable source-only sort (Витрина before Крыша, fetch order
within each source) — not the default multi-key order. -/
theorem c3_unknown_field_source_only_sort :
    ∀ (items : List Item) (ob : String),
      ob ≠ "" →
      mapSortField (parseOrderBy ob).1 ∉ itemKeys →
      sortItems (some ob) items = List.insertionSort srcRel items := by
  intro items ob hne hnk
  simp only [sortItems]
  rw [if_neg hne]
  exact insertionSort_congr _ _
    (fun x y => customRel_iff_srcRel
      (fun z => Item.get_eq_none_of_not_mem hnk) x y) items

/-- C3 (witness): the amended statement at `order_by = "foo"` on a mixed
three-item list. -/
theorem c3_unknown_field_source_only_sort_witness :
    sortItems (some "foo") [c3a, c2S1, c3b] =
      List.insertionSort srcRel [c3a, c2S1, c3b] :=
  c3_unknown_field_source_only_sort [c3a, c2S1, c3b] "foo" (by decide) (by decide)

/-! ### C6: order lemmas for the custom sort -/

theorem clLtB_asymm : ∀ (a b : List Char), clLtB a b = true → clLtB b a = false
  | [], [] => by simp [clLtB]
  | [], y :: bs => by intro h; simp [clLtB]
  | x :: as, [] => by simp [clLtB]
  | x :: as, y :: bs => by
    intro h
    simp only [clLtB] at h ⊢
    by_cases hxy : x < y
    · simp [hxy, lt_asymm hxy]
    · by_cases hyx : y < x
      · simp [hxy, hyx] at h
      · simp [hxy, hyx] at h ⊢
        exact clLtB_asymm as bs h

theorem clLtB_le_trans : ∀ (a b c : List Char),
    clLtB b a = false → clLtB c b = false → clLtB c a = false
  | [], b, c => by
    intro h1 h2
    cases c <;> cases b <;> simp_all [clLtB]
  | x :: as, b, c => by
    intro h1 h2
    cases b with
    | nil => simp [clLtB] at h1
    | cons y bs =>
      cases c with
      | nil => simp [clLtB] at h2
      | cons z cs =>
        simp only [clLtB] at h1 h2 ⊢
        by_cases hyx : y < x
        · simp [hyx] at h1
        · by_cases hzy : z < y
          · simp [hzy] at h2
          · have hzx : ¬ z < x := fun hh => hzy (lt_of_lt_of_le hh (not_lt.mp hyx))
            rw [if_neg hzx]
            by_cases hxz : x < z
            · simp [hxz]
            · rw [if_neg hxz]
              have hxy : ¬ x < y := fun hh => hxz (lt_of_lt_of_le hh (not_lt.mp hzy))
              have hyz : ¬ y < z := fun hh => hxz (lt_of_le_of_lt (not_lt.mp hyx) hh)
              simp [hyx, hxy] at h1
              simp [hzy, hyz] at h2
              exact clLtB_le_trans as bs cs h1 h2

theorem clLtB_append_left : ∀ (p a b : List Char),
    clLtB (p ++ a) (p ++ b) = clLtB a b
  | [], a, b => rfl
  | c :: p, a, b => by simp [clLtB, lt_irrefl, clLtB_append_left p a b]

theorem pyStrLe_trans {a b c : String} (h1 : pyStrLe a b) (h2 : pyStrLe b c) :
    pyStrLe a c :=
  clLtB_le_trans a.data b.data c.data h1 h2

theorem pyStrLe_total (a b : String) : pyStrLe a b ∨ pyStrLe b a := by
  by_cases h : clLtB b.data a.data = true
  · exact Or.inr (clLtB_asymm _ _ h)
  · exact Or.inl (by simpa using h)

theorem sortValLe_total : ∀ a b : SortVal, SortVal.Le a b ∨ SortVal.Le b a := by
  intro a b
  cases a <;> cases b <;> simp only [SortVal.Le]
  · exact le_total _ _
  · exact Or.inl trivial
  · exact Or.inr trivial
  · exact pyStrLe_total _ _

theorem sortValLe_trans : ∀ {a b c : SortVal},
    SortVal.Le a b → SortVal.Le b c → SortVal.Le a c := by
  intro a b c h1 h2
  cases a <;> cases b <;> cases c <;> simp_all only [SortVal.Le]
  · exact le_trans h1 h2
  · exact pyStrLe_trans h1 h2

theorem keyLe_total : ∀ k k' : ℕ × ℕ × SortVal, keyLe k k' ∨ keyLe k' k := by
  intro k k'
  unfold keyLe
  rcases Nat.lt_trichotomy k.1 k'.1 with h | h | h
  · exact Or.inl (Or.inl h)
  · rcases Nat.lt_trichotomy k.2.1 k'.2.1 with h2 | h2 | h2
    · exact Or.inl (Or.inr ⟨h, Or.inl h2⟩)
    · rcases sortValLe_total k.2.2 k'.2.2 with h3 | h3
      · exact Or.inl (Or.inr ⟨h, Or.inr ⟨h2, h3⟩⟩)
      · exact Or.inr (Or.inr ⟨h.symm, Or.inr ⟨h2.symm, h3⟩⟩)
    · exact Or.inr (Or.inr ⟨h.symm, Or.inl h2⟩)
  · exact Or.inr (Or.inl h)

theorem keyLe_trans : ∀ {j k l : ℕ × ℕ × SortVal},
    keyLe j k → keyLe k l → keyLe j l := by
  intro j k l h1 h2
  rcases h1 with a1 | ⟨e1, h1'⟩
  · rcases h2 with a2 | ⟨e2, _⟩
    · exact Or.inl (lt_trans a1 a2)
    · exact Or.inl (e2 ▸ a1)
  · rcases h2 with a2 | ⟨e2, h2'⟩
    · exact Or.inl (e1 ▸ a2)
    · refine Or.inr ⟨e1.trans e2, ?_⟩
      rcases h1' with b1 | ⟨f1, s1⟩
      · rcases h2' with b2 | ⟨f2, _⟩
        · exact Or.inl (lt_trans b1 b2)
        · exact Or.inl (f2 ▸ b1)
      · rcases h2' with b2 | ⟨f2, s2⟩
        · exact Or.inl (f1 ▸ b2)
        · exact Or.inr ⟨f1.trans f2, sortValLe_trans s1 s2⟩

theorem customRel_total (ob : String) : ∀ x y, customRel ob x y ∨ customRel ob y x :=
  fun _ _ => keyLe_total _ _

theorem customRel_trans (ob : String) : ∀ {x y z},
    customRel ob x y → customRel ob y z → customRel ob x z :=
  fun h1 h2 => keyLe_trans h1 h2

theorem keyLe_fst {k k' : ℕ × ℕ × SortVal} (h : keyLe k k') : k.1 ≤ k'.1 := by
  rcases h with h | ⟨h, _⟩ <;> omega

theorem keyLe_snd {k k' : ℕ × ℕ × SortVal} (h : keyLe k k') (he : k.1 = k'.1) :
    k.2.1 ≤ k'.2.1 := by
  rcases h with h | ⟨h, h2 | ⟨h2, _⟩⟩ <;> omega

theorem keyLe_trd {k k' : ℕ × ℕ × SortVal} (h : keyLe k k')
    (he : k.1 = k'.1) (he2 : k.2.1 = k'.2.1) : SortVal.Le k.2.2 k'.2.2 := by
  rcases h with h | ⟨h, h2 | ⟨h2, h3⟩⟩
  · exact absurd he (by omega)
  · exact absurd he2 (by omega)
  · exact h3

theorem customKey_fst (f : String) (d : Bool) (x : Item) :
    (customKey f d x).1 = srcOrd x := by
  rcases hg : x.get (mapSortField f) with _ | v
  · simp [customKey, hg]
  · cases v <;> simp [customKey, hg]

theorem customKey_of_num {f : String} {d : Bool} {x : Item} {q : ℚ}
    (h : x.get (mapSortField f) = some (.num q)) :
    customKey f d x = (srcOrd x, 0, .num (if d then -q else q)) := by
  simp [customKey, h]

theorem customKey_of_str {f : String} {d : Bool} {x : Item} {s : String}
    (h : x.get (mapSortField f) = some (.str s)) :
    customKey f d x = (srcOrd x, 0, .str (if d then "zzz" ++ s else s)) := by
  simp [customKey, h]

/-- What one sorted-adjacency fact of the custom order means semantically:
source ranks are monotone; within one source a missing field after `a`
forces it missing after `b`; and two present values are ordered by the
effective direction rule. -/
theorem customRel_imp {ob f : String} {d : Bool} (hp : parseOrderBy ob = (f, d))
    {a b : Item} (h : customRel ob a b) :
    srcOrd a ≤ srcOrd b ∧
    (srcOrd a = srcOrd b → a.get (mapSortField f) = none →
      b.get (mapSortField f) = none) ∧
    (srcOrd a = srcOrd b → ∀ va vb, a.get (mapSortField f) = some va →
      b.get (mapSortField f) = some vb → effDirLe d va vb) := by
  unfold customRel at h
  rw [hp] at h
  refine ⟨?_, ?_, ?_⟩
  · have := keyLe_fst h
    rwa [customKey_fst, customKey_fst] at this
  · intro hsrc hga
    rcases hgb : b.get (mapSortField f) with _ | vb
    · rfl
    · exfalso
      have hfst : (customKey f d a).1 = (customKey f d b).1 := by
        rw [customKey_fst, customKey_fst, hsrc]
      have h2 := keyLe_snd h hfst
      rcases vb with q | s
      · rw [customKey_of_get_none hga, customKey_of_num hgb] at h2
        simp at h2
      · rw [customKey_of_get_none hga, customKey_of_str hgb] at h2
        simp at h2
  · intro hsrc va vb hga hgb
    have hfst : (customKey f d a).1 = (customKey f d b).1 := by
      rw [customKey_fst, customKey_fst, hsrc]
    rcases va with qa | sa <;> rcases vb with qb | sb
    · have hsnd : (customKey f d a).2.1 = (customKey f d b).2.1 := by
        rw [customKey_of_num hga, customKey_of_num hgb]
      have h3 := keyLe_trd h hfst hsnd
      rw [customKey_of_num hga, customKey_of_num hgb] at h3
      cases d
      · simpa [SortVal.Le, effDirLe] using h3
      · simp only [SortVal.Le, if_true, Bool.ite_eq_true_distrib] at h3 ⊢
        simp only [effDirLe]
        simp at h3 ⊢
        linarith
    · simp [effDirLe]
    · simp [effDirLe]
    · have hsnd : (customKey f d a).2.1 = (customKey f d b).2.1 := by
        rw [customKey_of_str hga, customKey_of_str hgb]
      have h3 := keyLe_trd h hfst hsnd
      rw [customKey_of_str hga, customKey_of_str hgb] at h3
      cases d
      · simpa [SortVal.Le, effDirLe] using h3
      · simp only [SortVal.Le, effDirLe] at h3 ⊢
        simp only [if_true] at h3
        unfold pyStrLe at h3 ⊢
        have hb : ("zzz" ++ sb).data = "zzz".data ++ sb.data := rfl
        rw [hb] at h3
        have ha : ("zzz" ++ sa).data = "zzz".data ++ sa.data := rfl
        rw [ha] at h3
        rwa [clLtB_append_left] at h3

/-- C6 (counterexample): sorting by `"-category"` leaves two Витрина items
with categories `"A"`, `"B"` in ascending category order — the claimed
descending direction (`specDirectionLe true`) is violated by the adjacent
pair, because prefixing `'zzz'` to both strings does not reverse their
order. -/
theorem c6_desc_category_counterexample :
    sortItems (some "-category") [c6a, c6b] = [c6a, c6b] ∧
    (c6a.get (mapSortField (parseOrderBy "-category").1),
     c6b.get (mapSortField (parseOrderBy "-category").1)) =
      (some (.str "A"), some (.str "B")) ∧
    srcOrd c6a = srcOrd c6b ∧
    (parseOrderBy "-category").2 = true ∧
    ¬ specDirectionLe true (.str "A") (.str "B") :=
  ⟨by decide, by decide, by decide, by decide, by decide⟩

/-- C6 (amended): for a recognized `order_by` field (`category`, `score`,
`price`, `area`, or the alias `contract_price`), the sorted result is a
permutation of the input that keeps all Витрина items before all Крыша
items; within a source, items missing the field always come after items
that have it, regardless of direction; and present values are ordered by
the field — with `-` honoured for the numeric fields, while the string
field `category` is sorted ascending regardless of direction. -/
theorem c6_recognized_field_sort :
    ∀ (items : List Item) (ob f : String) (d : Bool),
      parseOrderBy ob = (f, d) →
      mapSortField f ∈ ["category", "score", "price", "area"] →
      ob ≠ "" →
      (sortItems (some ob) items).Perm items ∧
      (sortItems (some ob) items).Pairwise (fun a b => srcOrd a ≤ srcOrd b) ∧
      (sortItems (some ob) items).Pairwise (fun a b =>
        srcOrd a = srcOrd b → a.get (mapSortField f) = none →
          b.get (mapSortField f) = none) ∧
      (sortItems (some ob) items).Pairwise (fun a b =>
        srcOrd a = srcOrd b →
        ∀ va vb, a.get (mapSortField f) = some va →
          b.get (mapSortField f) = some vb → effDirLe d va vb) := by
  intro items ob f d hp hmem hne
  have hs : sortItems (some ob) items = List.insertionSort (customRel ob) items := by
    simp only [sortItems]
    rw [if_neg hne]
  have hpw : (sortItems (some ob) items).Pairwise (customRel ob) := by
    rw [hs]
    haveI : IsTotal Item (customRel ob) := ⟨customRel_total ob⟩
    haveI : IsTrans Item (customRel ob) := ⟨fun _ _ _ => customRel_trans ob⟩
    exact List.sorted_insertionSort (customRel ob) items
  refine ⟨hs ▸ List.perm_insertionSort (customRel ob) items, ?_, ?_, ?_⟩
  · exact hpw.imp (fun h => (customRel_imp hp h).1)
  · exact hpw.imp (fun h => (customRel_imp hp h).2.1)
  · exact hpw.imp (fun h => (customRel_imp hp h).2.2)

/-- C6 (witness): the amended statement at `order_by = "-price"` on a
three-item mixed-source list. -/
theorem c6_recognized_field_sort_witness :
    (sortItems (some "-price") [c6a, c6b, c2S1]).Perm [c6a, c6b, c2S1] ∧
    (sortItems (some "-price") [c6a, c6b, c2S1]).Pairwise
      (fun a b => srcOrd a ≤ srcOrd b) ∧
    (sortItems (some "-price") [c6a, c6b, c2S1]).Pairwise (fun a b =>
      srcOrd a = srcOrd b → a.get (mapSortField "price") = none →
        b.get (mapSortField "price") = none) ∧
    (sortItems (some "-price") [c6a, c6b, c2S1]).Pairwise (fun a b =>
      srcOrd a = srcOrd b →
      ∀ va vb, a.get (mapSortField "price") = some va →
        b.get (mapSortField "price") = some vb → effDirLe true va vb) :=
  c6_recognized_field_sort [c6a, c6b, c2S1] "-price" "price" true rfl
    (by decide) (by decide)

/-! ### C7 -/

theorem idxRel_total : ∀ a b : Item × ℕ, idxRel a b ∨ idxRel b a :=
  fun a b => Nat.le_total a.2 b.2

theorem idxRel_trans : ∀ {a b c : Item × ℕ}, idxRel a b → idxRel b c → idxRel a c :=
  fun h1 h2 => Nat.le_trans h1 h2

theorem insertionSort_idx_eq {l l' : List (Item × ℕ)} (hp : l.Perm l')
    (hn : (l'.map Prod.snd).Nodup) :
    List.insertionSort idxRel l = List.insertionSort idxRel l' := by
  haveI : IsTotal (Item × ℕ) idxRel := ⟨idxRel_total⟩
  haveI : IsTrans (Item × ℕ) idxRel := ⟨fun _ _ _ => idxRel_trans⟩
  have hperm : (List.insertionSort idxRel l).Perm (List.insertionSort idxRel l') :=
    (List.perm_insertionSort _ _).trans (hp.trans (List.perm_insertionSort idxRel l').symm)
  have hn2 : ((List.insertionSort idxRel l').map Prod.snd).Nodup :=
    (((List.perm_insertionSort idxRel l').map Prod.snd).nodup_iff).mpr hn
  have hn1 : ((List.insertionSort idxRel l).map Prod.snd).Nodup :=
    ((hperm.map Prod.snd).nodup_iff).mpr hn2
  have hne1 : (List.insertionSort idxRel l).Pairwise (fun a b : Item × ℕ => a.2 ≠ b.2) :=
    (List.pairwise_map).mp hn1
  have hne2 : (List.insertionSort idxRel l').Pairwise (fun a b : Item × ℕ => a.2 ≠ b.2) :=
    (List.pairwise_map).mp hn2
  have hlt1 : (List.insertionSort idxRel l).Pairwise (fun a b : Item × ℕ => a.2 < b.2) :=
    ((List.sorted_insertionSort idxRel l).and hne1).imp
      (fun h => Nat.lt_of_le_of_ne h.1 h.2)
  have hlt2 : (List.insertionSort idxRel l').Pairwise (fun a b : Item × ℕ => a.2 < b.2) :=
    ((List.sorted_insertionSort idxRel l').and hne2).imp
      (fun h => Nat.lt_of_le_of_ne h.1 h.2)
  haveI : IsAntisymm (Item × ℕ) (fun a b : Item × ℕ => a.2 < b.2) :=
    ⟨fun a b h h' => absurd (Nat.lt_trans h h') (Nat.lt_irrefl _)⟩
  exact List.eq_of_perm_of_sorted hperm hlt1 hlt2

theorem vit_kri_perm (items : List Item) :
    (vitrinaOf items ++ krishaOf items).Perm (enumItems items) := by
  unfold vitrinaOf krishaOf
  have hfil : (enumItems items).filter (fun p => decide (p.1.source = Source.krisha)) =
      (enumItems items).filter (fun p => !decide (p.1.source = Source.vitrina)) := by
    apply List.filter_congr
    intro p _
    cases hp : p.1.source <;> simp [hp]
  rw [hfil]
  exact List.filter_append_perm _ _

theorem enumItems_snd_nodup (items : List Item) :
    ((enumItems items).map Prod.snd).Nodup := by
  unfold enumItems
  rw [List.map_map]
  exact List.nodup_enum_map_fst items

theorem pagLoop_rel (check : String → Bool)
    (sh : ℕ → List (Item × ℕ) → List (Item × ℕ))
    (hsh : ∀ n l, (sh n l).Perm l) (bs tgt : ℕ) :
    ∀ (rem batch : List (Item × ℕ)) (validS validI : List (Item × ℕ))
      (ids : List String) (n : ℕ),
      validS.Perm validI →
      (pagLoop check sh bs tgt rem batch validS ids n).1.Perm
        (pagLoop check (fun _ l => l) bs tgt rem batch validI ids n).1 ∧
      (pagLoop check sh bs tgt rem batch validS ids n).2.1 =
        (pagLoop check (fun _ l => l) bs tgt rem batch validI ids n).2.1 ∧
      (pagLoop check sh bs tgt rem batch validS ids n).2.2.1 =
        (pagLoop check (fun _ l => l) bs tgt rem batch validI ids n).2.2.1 ∧
      (pagLoop check sh bs tgt rem batch validS ids n).2.2.2 =
        (pagLoop check (fun _ l => l) bs tgt rem batch validI ids n).2.2.2 := by
  intro rem
  induction rem with
  | nil => intro batch validS validI ids n h; exact ⟨h, rfl, rfl, rfl⟩
  | cons x rest ih =>
    intro batch validS validI ids n h
    simp only [pagLoop]
    by_cases hc : bs ≤ (batch ++ [x]).length
    · simp only [if_pos hc]
      have hperm : (validS ++ sh n (checkBatch check (batch ++ [x]))).Perm
          (validI ++ checkBatch check (batch ++ [x])) :=
        h.append (hsh n _)
      have hlen := hperm.length_eq
      by_cases ht : tgt ≤ (validS ++ sh n (checkBatch check (batch ++ [x]))).length
      · rw [if_pos ht, if_pos (hlen ▸ ht)]
        exact ⟨hperm, rfl, rfl, rfl⟩
      · rw [if_neg ht, if_neg (fun hh => ht (by omega))]
        exact ih _ _ _ _ _ hperm
    · simp only [if_neg hc]
      have hlen := h.length_eq
      by_cases ht : tgt ≤ validS.length
      · rw [if_pos ht, if_pos (hlen ▸ ht)]
        exact ⟨h, rfl, rfl, rfl⟩
      · rw [if_neg ht, if_neg (fun hh => ht (by omega))]
        exact ih _ _ _ _ _ h

theorem pagLoop_sublist (check : String → Bool) (bs tgt : ℕ) :
    ∀ (rem batch valid : List (Item × ℕ)) (ids : List String) (n : ℕ),
      ((pagLoop check (fun _ l => l) bs tgt rem batch valid ids n).1 ++
       (pagLoop check (fun _ l => l) bs tgt rem batch valid ids n).2.1).Sublist
        (valid ++ batch ++ rem) := by
  intro rem
  induction rem with
  | nil =>
    intro batch valid ids n
    simp only [pagLoop, List.append_nil]
    exact List.Sublist.refl (valid ++ batch)
  | cons x rest ih =>
    intro batch valid ids n
    simp only [pagLoop]
    have hfil : (checkBatch check (batch ++ [x])).Sublist (batch ++ [x]) :=
      List.filter_sublist _
    by_cases hc : bs ≤ (batch ++ [x]).length
    · simp only [if_pos hc]
      by_cases ht : tgt ≤ (valid ++ checkBatch check (batch ++ [x])).length
      · rw [if_pos ht]
        have h1 : ((valid ++ checkBatch check (batch ++ [x])) ++ []).Sublist
            (valid ++ (batch ++ [x])) := by
          simpa using hfil.append_left valid
        refine h1.trans ?_
        have h2 : (valid ++ (batch ++ [x])).Sublist ((valid ++ (batch ++ [x])) ++ rest) :=
          List.sublist_append_left _ _
        simpa [List.append_assoc] using h2
      · rw [if_neg ht]
        refine (ih [] (valid ++ checkBatch check (batch ++ [x])) _ _).trans ?_
        have : ((valid ++ checkBatch check (batch ++ [x])) ++ rest).Sublist
            ((valid ++ (batch ++ [x])) ++ rest) :=
          (hfil.append_left valid).append (List.Sublist.refl rest)
        simpa [List.append_assoc] using this
    · simp only [if_neg hc]
      by_cases ht : tgt ≤ valid.length
      · rw [if_pos ht]
        have h2 : (valid ++ (batch ++ [x])).Sublist ((valid ++ (batch ++ [x])) ++ rest) :=
          List.sublist_append_left _ _
        simpa [List.append_assoc] using h2
      · rw [if_neg ht]
        have h2 := ih (batch ++ [x]) valid ids n
        simpa [List.append_assoc] using h2

/-- C7: with fixed per-item verdicts, reordering the accepted items of
every validity batch (any permutation, modelling arbitrary completion
interleavings of the concurrent checks) never changes the returned page:
the paginator re-sorts accepted items by their original index — which is
unique per item — before slicing. -/
theorem c7_batch_order_deterministic :
    ∀ (items : List Item) (offset limit : ℕ) (token : Option String)
      (check : String → Bool) (bs : ℕ)
      (sh : ℕ → List (Item × ℕ) → List (Item × ℕ)),
      (∀ n l, (sh n l).Perm l) →
      (filterAndPaginateCore items offset limit token check sh bs).page =
        (filter_and_paginate_items items offset limit token check bs).page := by
  intro items offset limit token check bs sh hsh
  unfold filter_and_paginate_items
  rcases token with _ | tok
  · rfl
  · unfold filterAndPaginateCore
    dsimp only
    set vit := vitrinaOf items with hvit
    set kri := krishaOf items with hkri
    set tgt := offset + limit with htgt
    set stS := pagLoop check sh bs tgt vit [] [] [] 0 with hstS
    set stI := pagLoop check (fun _ l => l) bs tgt vit [] [] [] 0 with hstI
    obtain ⟨hrel1, hrel2, hrel3, hrel4⟩ :=
      pagLoop_rel check sh hsh bs tgt vit [] [] [] [] 0 (List.Perm.refl [])
    have hlen1 : stS.1.length = stI.1.length := hrel1.length_eq
    have hsub0 : (stI.1 ++ stI.2.1).Sublist vit := by
      simpa using pagLoop_sublist check bs tgt vit [] [] [] 0
    have hnodvk : ((vit ++ kri).map Prod.snd).Nodup := by
      have hperm := (vit_kri_perm items).map Prod.snd
      exact hperm.nodup_iff.mpr (enumItems_snd_nodup items)
    have hcs : (stS.2.1 ≠ [] ∧ stS.1.length < tgt) ↔
        (stI.2.1 ≠ [] ∧ stI.1.length < tgt) := by
      rw [hrel2, hlen1]
    by_cases hcond : stI.2.1 ≠ [] ∧ stI.1.length < tgt
    · rw [if_pos hcond, if_pos (hcs.mpr hcond)]
      dsimp only
      have hv2perm : (stS.1 ++ sh stS.2.2.2 (checkBatch check stS.2.1)).Perm
          (stI.1 ++ checkBatch check stI.2.1) := by
        refine hrel1.append ?_
        rw [hrel2]
        exact hsh _ _
      have hv2sub : (stI.1 ++ checkBatch check stI.2.1).Sublist vit :=
        ((List.Sublist.refl stI.1).append (List.filter_sublist stI.2.1)).trans hsub0
      have hl2 := hv2perm.length_eq
      by_cases hc2 : (stI.1 ++ checkBatch check stI.2.1).length < tgt
      · rw [if_pos (hl2 ▸ hc2), if_pos hc2, hl2]
        have hap : ((stS.1 ++ sh stS.2.2.2 (checkBatch check stS.2.1)) ++
            kri.take (tgt - (stI.1 ++ checkBatch check stI.2.1).length)).Perm
            ((stI.1 ++ checkBatch check stI.2.1) ++
             kri.take (tgt - (stI.1 ++ checkBatch check stI.2.1).length)) :=
          hv2perm.append_right _
        have hnod : ((((stI.1 ++ checkBatch check stI.2.1) ++
            kri.take (tgt - (stI.1 ++ checkBatch check stI.2.1).length))).map
              Prod.snd).Nodup := by
          refine List.Nodup.sublist ?_ hnodvk
          exact (hv2sub.append (List.take_sublist _ _)).map Prod.snd
        rw [insertionSort_idx_eq hap hnod]
      · rw [if_neg (hl2 ▸ hc2), if_neg hc2]
        have hnod : (((stI.1 ++ checkBatch check stI.2.1)).map Prod.snd).Nodup := by
          refine List.Nodup.sublist ?_ hnodvk
          exact (hv2sub.trans (List.sublist_append_left vit kri)).map Prod.snd
        rw [insertionSort_idx_eq hv2perm hnod]
    · rw [if_neg hcond, if_neg (fun hh => hcond (hcs.mp hh))]
      dsimp only
      have hv2sub : stI.1.Sublist vit :=
        (List.sublist_append_left stI.1 stI.2.1).trans hsub0
      by_cases hc2 : stI.1.length < tgt
      · rw [if_pos (hlen1 ▸ hc2), if_pos hc2, hlen1]
        have hap : (stS.1 ++ kri.take (tgt - stI.1.length)).Perm
            (stI.1 ++ kri.take (tgt - stI.1.length)) :=
          hrel1.append_right _
        have hnod : (((stI.1 ++ kri.take (tgt - stI.1.length))).map Prod.snd).Nodup := by
          refine List.Nodup.sublist ?_ hnodvk
          exact (hv2sub.append (List.take_sublist _ _)).map Prod.snd
        rw [insertionSort_idx_eq hap hnod]
      · rw [if_neg (hlen1 ▸ hc2), if_neg hc2]
        have hnod : ((stI.1).map Prod.snd).Nodup := by
          refine List.Nodup.sublist ?_ hnodvk
          exact (hv2sub.trans (List.sublist_append_left vit kri)).map Prod.snd
        rw [insertionSort_idx_eq hrel1 hnod]

/-- C7 (witness): on the five-item scenario data, reversing every batch's
accepted items yields the same page as the in-order run. -/
theorem c7_batch_order_deterministic_witness :
    (filterAndPaginateCore c2Items 0 2 (some "token") c2Check revShuffle 20).page =
      (filter_and_paginate_items c2Items 0 2 (some "token") c2Check 20).page :=
  c7_batch_order_deterministic c2Items 0 2 (some "token") c2Check 20 revShuffle
    (fun _ l => l.reverse_perm)

/-! ### C8 -/

theorem lowerChar_ws (c : Char) : isWs (lowerChar c) = isWs c := by
  unfold lowerChar
  split <;> rfl

theorem mem_stripL {c : Char} {l : List Char} (h : c ∈ stripL l) : c ∈ l := by
  unfold stripL at h
  rw [List.mem_reverse] at h
  have h2 := (List.dropWhile_sublist _).subset h
  rw [List.mem_reverse] at h2
  exact (List.dropWhile_sublist _).subset h2

theorem stripL_eq_nil {l : List Char} (h : stripL l = []) :
    ∀ c ∈ l, isWs c = true := by
  unfold stripL at h
  rw [List.reverse_eq_nil_iff, List.dropWhile_eq_nil_iff] at h
  intro c hc
  have hsplit := List.takeWhile_append_dropWhile (p := isWs) (l := l)
  rw [← hsplit] at hc
  rcases List.mem_append.mp hc with h1 | h2
  · exact List.mem_takeWhile_imp h1
  · exact h c (List.mem_reverse.mpr h2)

theorem splitWsAux_words : ∀ (l acc : List Char),
    (∀ c ∈ acc, isWs c = false) →
    ∀ w ∈ splitWsAux l acc, w ≠ [] ∧ ∀ c ∈ w, isWs c = false
  | [], acc => by
    intro hacc w hw
    unfold splitWsAux at hw
    by_cases ha : acc.isEmpty
    · simp [ha] at hw
    · simp [ha] at hw
      subst hw
      constructor
      · simpa using fun hh => ha (by simp [hh])
      · intro c hc
        exact hacc c (List.mem_reverse.mp hc)
  | d :: rest, acc => by
    intro hacc w hw
    unfold splitWsAux at hw
    by_cases hd : isWs d
    · rw [if_pos hd] at hw
      by_cases ha : acc.isEmpty
      · rw [if_pos ha] at hw
        exact splitWsAux_words rest [] (by simp) w hw
      · rw [if_neg ha] at hw
        rcases List.mem_cons.mp hw with h1 | h2
        · subst h1
          constructor
          · simpa using fun hh => ha (by simp [hh])
          · intro c hc
            exact hacc c (List.mem_reverse.mp hc)
        · exact splitWsAux_words rest [] (by simp) w h2
    · rw [if_neg hd] at hw
      refine splitWsAux_words rest (d :: acc) ?_ w hw
      intro c hc
      rcases List.mem_cons.mp hc with h1 | h2
      · subst h1; simpa using hd
      · exact hacc c h2

theorem splitWsAux_all_ws : ∀ (l : List Char),
    (∀ c ∈ l, isWs c = true) → splitWsAux l [] = []
  | [] => by intro h; rfl
  | d :: rest => by
    intro h
    unfold splitWsAux
    rw [if_pos (h d (List.mem_cons_self d rest)), if_pos (by simp)]
    exact splitWsAux_all_ws rest (fun c hc => h c (List.mem_cons_of_mem d hc))

theorem normalizeWordsL_wsFree {t : List Char} :
    ∀ w ∈ normalizeWordsL t, ∀ c ∈ w, isWs c = false := by
  intro w hw c hc
  unfold normalizeWordsL at hw
  rcases List.mem_map.mp hw with ⟨w0, hw0, rfl⟩
  have hw0s : w0 ∈ splitWs t := List.mem_of_mem_filter hw0
  rcases List.mem_map.mp hc with ⟨c0, hc0, rfl⟩
  have hfree := (splitWsAux_words t [] (by simp) w0 hw0s).2
  rw [lowerChar_ws]
  exact hfree c0 (mem_stripL hc0)

theorem normalizeWordsL_nil : normalizeWordsL [] = [] := rfl

theorem normalizeWordsL_guard {t : List Char} {w : List Char}
    (h : w ∈ normalizeWordsL t) : t ≠ [] ∧ stripL t ≠ [] := by
  constructor
  · rintro rfl
    simp [normalizeWordsL_nil] at h
  · intro hs
    have hall := stripL_eq_nil hs
    have : splitWs t = [] := splitWsAux_all_ws t hall
    unfold normalizeWordsL at h
    rw [this] at h
    simp at h

theorem two_mem_length {α : Type} {a b : α} {l : List α}
    (ha : a ∈ l) (hb : b ∈ l) (hne : a ≠ b) : 2 ≤ l.length := by
  rcases l with _ | ⟨x, _ | ⟨y, t⟩⟩
  · simp at ha
  · simp at ha hb
    exact absurd (ha.trans hb.symm) hne
  · simp [List.length_cons]

theorem append_space_inj : ∀ {u x v y : List Char},
    (∀ c ∈ u, isWs c = false) → (∀ c ∈ x, isWs c = false) →
    u ++ ' ' :: v = x ++ ' ' :: y → u = x ∧ v = y
  | [], [], v, y => by
    intro _ _ h
    simpa using h
  | [], d :: x', v, y => by
    intro _ hx h
    simp only [List.nil_append, List.cons_append, List.cons.injEq] at h
    exact absurd (hx d (by simp) ▸ (h.1 ▸ rfl : isWs d = isWs ' ')) (by simp [isWs])
  | c :: u', [], v, y => by
    intro hu _ h
    simp only [List.cons_append, List.nil_append, List.cons.injEq] at h
    exact absurd (hu c (by simp) ▸ (h.1 ▸ rfl : isWs c = isWs ' ')) (by simp [isWs])
  | c :: u', d :: x', v, y => by
    intro hu hx h
    simp only [List.cons_append, List.cons.injEq] at h
    obtain ⟨rfl, h2⟩ := h
    obtain ⟨h3, h4⟩ := append_space_inj
      (fun e he => hu e (List.mem_cons_of_mem c he))
      (fun e he => hx e (List.mem_cons_of_mem c he)) h2
    exact ⟨by rw [h3], h4⟩

theorem joinSp_pair (u v : List Char) : joinSp [u, v] = u ++ ' ' :: v := rfl

theorem mkKey_eq_iff {x y : List Char}
    (hx : ∀ c ∈ x, isWs c = false) (hy : ∀ c ∈ y, isWs c = false) :
    joinSp (pySort2 x y) = aidosBekovKey ↔
      (x = aidosW ∧ y = bekovW) ∨ (x = bekovW ∧ y = aidosW) := by
  have hk : aidosBekovKey = aidosW ++ ' ' :: bekovW := by decide
  have hwa : ∀ c ∈ aidosW, isWs c = false := by decide
  constructor
  · intro h
    unfold pySort2 at h
    by_cases hlt : clLtB y x = true
    · rw [if_pos hlt, joinSp_pair, hk] at h
      obtain ⟨h1, h2⟩ := append_space_inj hy hwa h
      exact Or.inr ⟨h2, h1⟩
    · rw [if_neg (by simpa using hlt), joinSp_pair, hk] at h
      obtain ⟨h1, h2⟩ := append_space_inj hx hwa h
      exact Or.inl ⟨h1, h2⟩
  · rintro (⟨rfl, rfl⟩ | ⟨rfl, rfl⟩) <;> decide

theorem dictGet_single {k kab pc : List Char} :
    dictGet k [(kab, pc)] = if kab = k then some pc else none := rfl

theorem scanFrom_hit {pc : List Char} : ∀ (w : List Char) (vs : List (List Char)),
    (∀ c ∈ w, isWs c = false) → (∀ v ∈ vs, ∀ c ∈ v, isWs c = false) →
    ((w = aidosW ∧ bekovW ∈ vs) ∨ (w = bekovW ∧ aidosW ∈ vs)) →
    scanFrom w [(aidosBekovKey, pc)] vs = some pc
  | w, [] => by
    intro _ _ htgt
    rcases htgt with ⟨_, hm⟩ | ⟨_, hm⟩ <;> simp at hm
  | w, v :: rest => by
    intro hw hvs htgt
    unfold scanFrom
    by_cases hk : joinSp (pySort2 w v) = aidosBekovKey
    · rw [dictGet_single, if_pos hk.symm]
    · rw [dictGet_single, if_neg (fun hh => hk hh.symm)]
      have hvfree : ∀ c ∈ v, isWs c = false := hvs v (by simp)
      have hrest : ∀ u ∈ rest, ∀ c ∈ u, isWs c = false :=
        fun u hu => hvs u (List.mem_cons_of_mem v hu)
      refine scanFrom_hit w rest hw hrest ?_
      rcases htgt with ⟨rfl, hm⟩ | ⟨rfl, hm⟩
      · rcases List.mem_cons.mp hm with rfl | hm2
        · exact absurd ((mkKey_eq_iff hw hvfree).mpr (Or.inl ⟨rfl, rfl⟩)) hk
        · exact Or.inl ⟨rfl, hm2⟩
      · rcases List.mem_cons.mp hm with rfl | hm2
        · exact absurd ((mkKey_eq_iff hw hvfree).mpr (Or.inr ⟨rfl, rfl⟩)) hk
        · exact Or.inr ⟨rfl, hm2⟩

theorem scanFrom_none {pc : List Char} : ∀ (w : List Char) (vs : List (List Char)),
    (∀ c ∈ w, isWs c = false) → (∀ v ∈ vs, ∀ c ∈ v, isWs c = false) →
    (∀ v ∈ vs, ¬((w = aidosW ∧ v = bekovW) ∨ (w = bekovW ∧ v = aidosW))) →
    scanFrom w [(aidosBekovKey, pc)] vs = none
  | w, [] => by intro _ _ _; rfl
  | w, v :: rest => by
    intro hw hvs hno
    unfold scanFrom
    have hvfree : ∀ c ∈ v, isWs c = false := hvs v (by simp)
    have hk : joinSp (pySort2 w v) ≠ aidosBekovKey := by
      intro hh
      exact hno v (by simp) ((mkKey_eq_iff hw hvfree).mp hh)
    rw [dictGet_single, if_neg (fun hh => hk hh.symm)]
    exact scanFrom_none w rest hw
      (fun u hu => hvs u (List.mem_cons_of_mem v hu))
      (fun u hu => hno u (List.mem_cons_of_mem v hu))

theorem pairScan_hit {pc : List Char} : ∀ (W : List (List Char)),
    (∀ v ∈ W, ∀ c ∈ v, isWs c = false) →
    aidosW ∈ W → bekovW ∈ W →
    pairScan [(aidosBekovKey, pc)] W = some pc
  | [] => by intro _ ha _; simp at ha
  | w :: rest => by
    intro hws ha hb
    unfold pairScan
    have hwfree : ∀ c ∈ w, isWs c = false := hws w (by simp)
    have hrest : ∀ u ∈ rest, ∀ c ∈ u, isWs c = false :=
      fun u hu => hws u (List.mem_cons_of_mem w hu)
    by_cases hwa : w = aidosW
    · subst hwa
      have hbr : bekovW ∈ rest := by
        rcases List.mem_cons.mp hb with hh | hh
        · exact absurd hh.symm (by decide)
        · exact hh
      rw [scanFrom_hit aidosW rest hwfree hrest (Or.inl ⟨rfl, hbr⟩)]
    · by_cases hwb : w = bekovW
      · subst hwb
        have har : aidosW ∈ rest := by
          rcases List.mem_cons.mp ha with hh | hh
          · exact absurd hh.symm (by decide)
          · exact hh
        rw [scanFrom_hit bekovW rest hwfree hrest (Or.inr ⟨rfl, har⟩)]
      · rw [scanFrom_none w rest hwfree hrest ?hno]
        case hno =>
          intro v hv
          rintro (⟨h1, _⟩ | ⟨h1, _⟩)
          · exact hwa h1
          · exact hwb h1
        have har : aidosW ∈ rest := by
          rcases List.mem_cons.mp ha with hh | hh
          · exact absurd hh.symm hwa
          · exact hh
        have hbr : bekovW ∈ rest := by
          rcases List.mem_cons.mp hb with hh | hh
          · exact absurd hh.symm hwb
          · exact hh
        exact pairScan_hit rest hrest har hbr

theorem pairScan_none {pc : List Char} : ∀ (W : List (List Char)),
    (∀ v ∈ W, ∀ c ∈ v, isWs c = false) →
    (aidosW ∉ W ∨ bekovW ∉ W) →
    pairScan [(aidosBekovKey, pc)] W = none
  | [] => by intro _ _; rfl
  | w :: rest => by
    intro hws hmiss
    unfold pairScan
    have hwfree : ∀ c ∈ w, isWs c = false := hws w (by simp)
    have hrest : ∀ u ∈ rest, ∀ c ∈ u, isWs c = false :=
      fun u hu => hws u (List.mem_cons_of_mem w hu)
    rw [scanFrom_none w rest hwfree hrest ?hno]
    case hno =>
      intro v hv
      rintro (⟨rfl, rfl⟩ | ⟨rfl, rfl⟩)
      · rcases hmiss with hm | hm
        · exact hm (by simp)
        · exact hm (List.mem_cons_of_mem _ hv)
      · rcases hmiss with hm | hm
        · exact hm (List.mem_cons_of_mem _ hv)
        · exact hm (by simp)
    refine pairScan_none rest hrest ?_
    rcases hmiss with hm | hm
    · exact Or.inl (fun hh => hm (List.mem_cons_of_mem w hh))
    · exact Or.inr (fun hh => hm (List.mem_cons_of_mem w hh))

theorem prepare_single (fullName phone : List Char) (hph : phone ≠ [])
    (hnw : normalizeWordsL fullName = [aidosW, bekovW] ∨
           normalizeWordsL fullName = [bekovW, aidosW]) :
    (prepare_agents_indexes [⟨some fullName, some phone⟩]).2 =
      [(aidosBekovKey, stripL phone)] := by
  have hfn : fullName ≠ [] := by
    rintro rfl
    rcases hnw with h | h <;> simp [normalizeWordsL_nil] at h
  have h1 : truthyStr (some phone) = true := by
    simp [truthyStr, hph]
  have h2 : truthyStr (some fullName) = true := by
    simp [truthyStr, hfn]
  unfold prepare_agents_indexes
  simp only [List.foldl_cons, List.foldl_nil]
  rcases hnw with hcase | hcase <;>
    simp [h1, h2, hcase, dictGet, dictSet] <;> decide

/-- C8: for a directory with a single agent whose name normalizes to
exactly the words `aidos` and `bekov` (in either order) and a truthy
phone, `find_agent_phone_from_db_optimized` resolves the stripped phone
for any `mop` whose normalized words contain both entry words — in any
order and positions among at least two words — and resolves nothing when
the `mop` shares only one of the two words. -/
theorem c8_contact_pair_match :
    ∀ (fullName phone mop : List Char),
      phone ≠ [] →
      (normalizeWordsL fullName = [aidosW, bekovW] ∨
       normalizeWordsL fullName = [bekovW, aidosW]) →
      ((aidosW ∈ normalizeWordsL mop ∧ bekovW ∈ normalizeWordsL mop ∧
          2 ≤ (normalizeWordsL mop).length) →
        find_agent_phone_from_db_optimized mop
          (prepare_agents_indexes [⟨some fullName, some phone⟩]).2 =
          some (stripL phone)) ∧
      (((aidosW ∈ normalizeWordsL mop ∧ bekovW ∉ normalizeWordsL mop) ∨
        (bekovW ∈ normalizeWordsL mop ∧ aidosW ∉ normalizeWordsL mop)) →
        find_agent_phone_from_db_optimized mop
          (prepare_agents_indexes [⟨some fullName, some phone⟩]).2 = none) := by
  intro fullName phone mop hph hnw
  rw [prepare_single fullName phone hph hnw]
  constructor
  · rintro ⟨ha, hb, hlen⟩
    obtain ⟨hm1, hm2⟩ := normalizeWordsL_guard ha
    unfold find_agent_phone_from_db_optimized
    rw [if_neg (by simp [hm1, hm2])]
    rw [if_neg ?g]
    case g =>
      simp only [Bool.or_eq_true, List.isEmpty_iff, decide_eq_true_eq, not_or, not_lt]
      refine ⟨fun hh => ?_, hlen⟩
      rw [hh] at hlen
      simp at hlen
    exact pairScan_hit _ (fun v hv => normalizeWordsL_wsFree v hv) ha hb
  · intro hmiss
    have hmem : aidosW ∈ normalizeWordsL mop ∨ bekovW ∈ normalizeWordsL mop := by
      rcases hmiss with ⟨h, _⟩ | ⟨h, _⟩
      · exact Or.inl h
      · exact Or.inr h
    have hnotboth : aidosW ∉ normalizeWordsL mop ∨ bekovW ∉ normalizeWordsL mop := by
      rcases hmiss with ⟨_, h⟩ | ⟨_, h⟩
      · exact Or.inr h
      · exact Or.inl h
    have hg1 : mop ≠ [] ∧ stripL mop ≠ [] := by
      rcases hmem with h | h
      · exact normalizeWordsL_guard h
      · exact normalizeWordsL_guard h
    obtain ⟨hm1, hm2⟩ := hg1
    unfold find_agent_phone_from_db_optimized
    rw [if_neg (by simp [hm1, hm2])]
    by_cases hg : (normalizeWordsL mop).isEmpty ||
        decide ((normalizeWordsL mop).length < 2)
    · rw [if_pos hg]
    · rw [if_neg hg]
      exact pairScan_none _ (fun v hv => normalizeWordsL_wsFree v hv) hnotboth

/-- C8 (witness): the entry `"Aidos Bekov"` with phone `"+7700"` matches
the mop `"Bekov Aidos Temirlanovich"` (reversed order among three words). -/
theorem c8_contact_pair_match_witness :
    find_agent_phone_from_db_optimized "Bekov Aidos Temirlanovich".data
      (prepare_agents_indexes
        [⟨some "Aidos Bekov".data, some "+7700".data⟩]).2 =
      some (stripL "+7700".data) :=
  (c8_contact_pair_match "Aidos Bekov".data "+7700".data "Bekov Aidos Temirlanovich".data
    (by decide) (Or.inl (by decide))).1 (by decide)

end VitrinaSearch
